import Mathlib

/-!
Verification of the per-connection operation scheduler of `src/database.cc`
(node-sqlite3): the request queue, the exclusive/shared locking discipline,
the pending-operation counter, and the reference-counted lifecycle.

The embedding is shallow: `Database.Schedule`, `Database.Process` (the drain
loop), `Database.EIO_BeginClose` and the open/close/destruct completion
handlers are translated from the C++ source.  The asynchronous environment
(worker-pool completions, garbage collection) is modelled as a list of events
consumed by `step`; each event handler performs exactly the state changes the
corresponding C++ handler performs and appends observable outputs (dispatches,
callback invocations, event emissions, engine close calls) to a trace.
-/

namespace NodeSqlite

/-- Which work function an operation record carries: `EIO_BeginClose`
    (the only exclusive operation) or a shared statement operation. -/
inductive WorkKind where
  | wshared
  | wclose
deriving DecidableEq

/-- Error kinds surfaced to the caller: SQLITE_MISUSE ("Database is closed")
    or an engine error from a failed open/close. -/
inductive ErrKind where
  | misuse
  | engine
deriving DecidableEq

/-- The request context: a request id (for tracing) and whether a completion
    callback was supplied (`baton->callback` non-empty). -/
structure Baton where
  id : Nat
  hasCb : Bool
deriving DecidableEq

/-- An operation record (`struct Call` in `database.cc`): work function,
    baton, and the exclusivity flag passed to `Schedule`. -/
structure Call where
  kind : WorkKind
  id : Nat
  hasCb : Bool
  exclusive : Bool
deriving DecidableEq

/-- Observable outputs of the scheduler, in program order. -/
inductive Out where
  /-- An operation record's work was executed (dispatched to the worker pool). -/
  | dispatched (id : Nat) (k : WorkKind)
  /-- `Schedule` failed a request on a permanently closed connection
      ("Database is closed"), delivered to its callback (`toCb = true`)
      or emitted as an "error" event (`toCb = false`). -/
  | failClosed (id : Nat) (k : WorkKind) (toCb : Bool)
  /-- A completion callback was invoked with a null error. -/
  | cbOk (id : Nat)
  /-- A completion callback was invoked with an error. -/
  | cbErr (id : Nat) (e : ErrKind)
  /-- An "error" event was emitted. -/
  | emitError (e : ErrKind)
  /-- The "open" event was emitted. -/
  | emitOpen
  /-- The "close" event was emitted. -/
  | emitClose
  /-- A `sqlite3_close` call reached the engine; `ok` is the engine's verdict. -/
  | engineClose (ok : Bool)
  /-- An `assert` in `EIO_BeginClose` evaluated to false. -/
  | assertFailed
deriving DecidableEq

/-- Connection state (the `Database` object's scheduler-relevant fields),
    plus the in-flight worker dispatches and lifecycle flags needed to model
    the asynchronous environment. -/
structure DB where
  /-- `db->open`. -/
  open_ : Bool
  /-- `db->locked`. -/
  locked : Bool
  /-- `db->pending`: in-flight shared operations. -/
  pending : Nat
  /-- `db->queue`, front first. -/
  queue : List Call
  /-- `db->refs_` (ObjectWrap reference count). -/
  refs : Nat
  /-- Net `ev_ref`/`ev_unref` count (event loop outstanding-work marker). -/
  evRefs : Nat
  /-- `db->handle != NULL`: the native sqlite3 handle is present. -/
  handle : Bool
  /-- The open dispatch in flight (from `EIO_BeginOpen`), if any. -/
  openInFlight : Option Baton
  /-- The close dispatch in flight (from `EIO_BeginClose`), if any. -/
  closeInFlight : Option Baton
  /-- An `EIO_Destruct` dispatch is in flight. -/
  destructInFlight : Bool
  /-- The weak-reference callback (`Destruct`) has fired. -/
  collected : Bool
  /-- The `Database` object has been deleted. -/
  deleted : Bool
deriving DecidableEq

/-- `Database::EIO_BeginClose`: asserts `open && !locked && pending == 0`,
    sets `locked`, and dispatches `EIO_Close` to the worker pool.
    A false assertion is recorded in the trace as `Out.assertFailed`. -/
def EIO_BeginClose (b : Baton) (db : DB) : DB × List Out :=
  let asserted := db.open_ && !db.locked && db.pending == 0
  ({ db with locked := true, closeInFlight := some b },
   if asserted then [Out.dispatched b.id WorkKind.wclose]
   else [Out.assertFailed, Out.dispatched b.id WorkKind.wclose])

/-- Modelled from the spec: the dispatch path of a shared (non-exclusive)
    operation.  The statement layer (`statement.cc`) is not under `src/`;
    per spec sections 3 and 4.3 a shared dispatch increments `pending`,
    takes a reference and marks the event loop as having outstanding work. -/
def beginShared (b : Baton) (db : DB) : DB × List Out :=
  ({ db with pending := db.pending + 1, refs := db.refs + 1, evRefs := db.evRefs + 1 },
   [Out.dispatched b.id WorkKind.wshared])

/-- `call->callback(call->baton)`: execute an operation record's work. -/
def Call.exec (c : Call) (db : DB) : DB × List Out :=
  match c.kind with
  | WorkKind.wclose => EIO_BeginClose ⟨c.id, c.hasCb⟩ db
  | WorkKind.wshared => beginShared ⟨c.id, c.hasCb⟩ db

/-- The `while` loop of `Database::Process`, with fuel (the loop strictly
    shrinks the queue; `drain` supplies `queue.length`).  While
    `open && !locked` and the queue is non-empty: stop if the front record is
    exclusive with `pending > 0`, otherwise execute its work and pop it. -/
def drainFuel : Nat → DB → DB × List Out
  | 0, db => (db, [])
  | Nat.succ fuel, db =>
    match db.queue with
    | [] => (db, [])
    | c :: rest =>
      if !db.open_ || db.locked then (db, [])
      else if c.exclusive && !(db.pending == 0) then (db, [])
      else
        let p := c.exec db
        let q := drainFuel fuel { p.1 with queue := rest }
        (q.1, p.2 ++ q.2)

/-- The drain loop of `Database::Process`. -/
def drain (db : DB) : DB × List Out := drainFuel db.queue.length db

/-- `Database::Process`: if the connection is permanently closed
    (`!open && locked`) and the queue is non-empty, emit a single
    "Database is closed" error event and return; otherwise run the drain
    loop. -/
def Process (db : DB) : DB × List Out :=
  if !db.open_ && db.locked && !db.queue.isEmpty then
    (db, [Out.emitError ErrKind.misuse])
  else drain db

/-- `Database::Schedule`: fail a request on a permanently closed connection,
    queue it when the connection is not open, locked, or the request is
    exclusive while shared operations are pending, else execute it now. -/
def Schedule (db : DB) (c : Call) : DB × List Out :=
  if !db.open_ && db.locked then
    (db, [Out.failClosed c.id c.kind c.hasCb])
  else if !db.open_ || db.locked || (c.exclusive && !(db.pending == 0)) then
    ({ db with queue := db.queue ++ [c] }, [])
  else
    c.exec db

/-- Environment events: completions delivered by the worker pool, request
    submissions from the caller, and garbage-collection finalization. -/
inductive Ev where
  /-- `EIO_Open` ran with verdict `ok`, then `EIO_AfterOpen`. -/
  | openDone (ok : Bool)
  /-- `Database::Close` was invoked (an exclusive close submission). -/
  | closeSubmit (id : Nat) (hasCb : Bool)
  /-- A shared request was submitted (spec section 4.1: every request
      enters through `submit`). -/
  | sharedSubmit (id : Nat) (hasCb : Bool)
  /-- One in-flight shared operation completed. -/
  | sharedDone
  /-- `EIO_Close` ran with verdict `ok`, then `EIO_AfterClose`. -/
  | closeDone (ok : Bool)
  /-- The external reference was lost and the weak callback
      (`Database::Destruct`) fired. -/
  | gc
  /-- `EIO_Destruct` ran (the engine's close verdict was `ok`, which the
      code ignores), then `EIO_AfterDestruct`. -/
  | destructDone (ok : Bool)
deriving DecidableEq

/-- `EIO_Open` followed by `EIO_AfterOpen`: the worker sets `db->handle`
    (NULL on failure); the completion handler drops the lifecycle bracket
    (Unref, ev_unref), delivers the result to the callback (or emits an
    "error" event), and on success sets `open`, emits "open" and runs
    `Process`. -/
def EIO_AfterOpen (ok : Bool) (b : Baton) (s : DB) : DB × List Out :=
  let s1 := { s with openInFlight := none, refs := s.refs - 1, evRefs := s.evRefs - 1 }
  if ok then
    let s2 := { s1 with open_ := true, handle := true }
    let pr := Process s2
    (pr.1, (if b.hasCb then [Out.cbOk b.id] else []) ++ [Out.emitOpen] ++ pr.2)
  else
    ({ s1 with handle := false },
     if b.hasCb then [Out.cbErr b.id ErrKind.engine] else [Out.emitError ErrKind.engine])

/-- `EIO_Close` followed by `EIO_AfterClose`: the worker calls
    `sqlite3_close` (clearing `db->handle` only on success); the completion
    handler drops the lifecycle bracket, delivers the result (on failure to
    the callback, or as an "error" event if the connection is still open),
    and on success clears `open` (leaving `locked` set), emits "close" and
    runs `Process`. -/
def EIO_AfterClose (ok : Bool) (b : Baton) (s : DB) : DB × List Out :=
  let s1 := { s with closeInFlight := none, refs := s.refs - 1, evRefs := s.evRefs - 1 }
  if ok then
    let s2 := { s1 with open_ := false, handle := false }
    let pr := Process s2
    (pr.1, [Out.engineClose true]
            ++ (if b.hasCb then [Out.cbOk b.id] else [])
            ++ [Out.emitClose] ++ pr.2)
  else
    (s1, [Out.engineClose false]
          ++ (if b.hasCb then [Out.cbErr b.id ErrKind.engine]
              else if s1.open_ then [Out.emitError ErrKind.engine] else []))

/-- Modelled from the spec: completion of a shared operation (the statement
    layer is not under `src/`) undoes its lifecycle bracket, decrements
    `pending` and re-enters the drain routine. -/
def sharedComplete (s : DB) : DB × List Out :=
  Process { s with pending := s.pending - 1, refs := s.refs - 1, evRefs := s.evRefs - 1 }

/-- `Database::Destruct` (the weak-reference callback): if the native handle
    is present, dispatch `EIO_Destruct` and mark the loop; otherwise delete
    the object immediately. -/
def Destruct (s : DB) : DB × List Out :=
  if s.handle then
    ({ s with collected := true, destructInFlight := true, evRefs := s.evRefs + 1 }, [])
  else
    ({ s with collected := true, deleted := true }, [])

/-- `EIO_Destruct` followed by `EIO_AfterDestruct`: close the handle in the
    engine — `ok` is the engine's verdict, which the code ignores
    (database.cc clears the handle unconditionally) — then unmark the loop
    and delete the object. -/
def EIO_AfterDestruct (ok : Bool) (s : DB) : DB × List Out :=
  ({ s with destructInFlight := false, handle := false,
            evRefs := s.evRefs - 1, deleted := true },
   [Out.engineClose ok])

/-- One environment event processed against the connection state.  An event
    whose precondition does not hold (for example a completion with nothing
    in flight) is a no-op. -/
def step (s : DB) (e : Ev) : DB × List Out :=
  if s.deleted then (s, [])
  else
    match e with
    | Ev.sharedSubmit id hasCb =>
      if s.collected then (s, [])
      else Schedule s ⟨WorkKind.wshared, id, hasCb, false⟩
    | Ev.closeSubmit id hasCb =>
      -- Database::Close: Ref(), ev_ref(), then Schedule(EIO_BeginClose, baton, true).
      if s.collected then (s, [])
      else Schedule { s with refs := s.refs + 1, evRefs := s.evRefs + 1 }
             ⟨WorkKind.wclose, id, hasCb, true⟩
    | Ev.openDone ok =>
      match s.openInFlight with
      | none => (s, [])
      | some b => EIO_AfterOpen ok b s
    | Ev.sharedDone =>
      if s.pending == 0 then (s, []) else sharedComplete s
    | Ev.closeDone ok =>
      match s.closeInFlight with
      | none => (s, [])
      | some b => EIO_AfterClose ok b s
    | Ev.gc =>
      -- Database::Destruct is only reachable once the wrapped handle is
      -- weak, which requires refs_ == 0 (Database::Unref / MakeWeak).
      if s.collected || !(s.refs == 0) then (s, []) else Destruct s
    | Ev.destructDone ok =>
      if s.destructInFlight then EIO_AfterDestruct ok s else (s, [])

/-- The connection state right after construction: `Database::New` builds the
    object (`refs_ = 0`, weak) and `EIO_BeginOpen` takes a reference, marks
    the loop and dispatches `EIO_Open`. -/
def init (hasCb : Bool) : DB :=
  { open_ := false, locked := false, pending := 0, queue := []
    refs := 1, evRefs := 1, handle := false
    openInFlight := some ⟨0, hasCb⟩, closeInFlight := none
    destructInFlight := false, collected := false, deleted := false }

/-- Run a list of environment events, accumulating the output trace. -/
def run (s : DB) : List Ev → DB × List Out
  | [] => (s, [])
  | e :: es =>
    let p := step s e
    let q := run p.1 es
    (q.1, p.2 ++ q.2)

/-! ### The constructor (`Database::New`) and its argument parsing -/

/-- A host-language (JavaScript) value, as far as `Database::New` inspects
    its arguments. -/
inductive JsVal where
  | vstr (s : String)
  | vint (n : Nat)
  | vfn
  | vundef
  | vother
deriving DecidableEq

/-- A thrown host-language exception. -/
inductive JsErr where
  | typeError (msg : String)
deriving DecidableEq

def SQLITE_OPEN_READWRITE : Nat := 2
def SQLITE_OPEN_CREATE : Nat := 4
def SQLITE_OPEN_FULLMUTEX : Nat := 65536

/-- The open-request context built by `Database::New`. -/
structure OpenBaton where
  filename : String
  mode : Nat
  hasCb : Bool
deriving DecidableEq

/-- A successful construction: the read-only properties set on the wrapper
    object, the open baton handed to `EIO_BeginOpen`, and the fresh
    connection state. -/
structure NewResult where
  jsFilename : String
  jsMode : Nat
  baton : OpenBaton
  db : DB
deriving DecidableEq

/-- `args[i]`, which in V8 is `undefined` past the end of the argument list. -/
def argAt (args : List JsVal) (i : Nat) : JsVal := args.getD i JsVal.vundef

/-- `Database::New`: reject non-construct calls with a TypeError; require a
    string filename (`REQUIRE_ARGUMENT_STRING`, modelled from the spec since
    `macros.h` is not under `src/`); take an optional Int32 mode (defaulting
    to `SQLITE_OPEN_READWRITE | SQLITE_OPEN_CREATE`) and an optional callback;
    build the baton with `SQLITE_OPEN_FULLMUTEX | mode` and begin the open. -/
def Database.New (construct : Bool) (args : List JsVal) : Except JsErr NewResult :=
  if !construct then
    Except.error (JsErr.typeError "Use the new keyword to create new Database objects")
  else
    match argAt args 0 with
    | JsVal.vstr filename =>
      let a1 := argAt args 1
      let mode := match a1 with
        | JsVal.vint n => n
        | _ => SQLITE_OPEN_READWRITE ||| SQLITE_OPEN_CREATE
      let pos := match a1 with
        | JsVal.vint _ => 2
        | _ => 1
      let hasCb := match argAt args pos with
        | JsVal.vfn => true
        | _ => false
      Except.ok
        { jsFilename := filename
          jsMode := mode
          baton := { filename := filename, mode := SQLITE_OPEN_FULLMUTEX ||| mode, hasCb := hasCb }
          db := init hasCb }
    | _ => Except.error (JsErr.typeError "First argument must be a string")

/-! ### Trace observations and state invariants -/

/-- Test for the "open" event in a trace. -/
def isEmitOpen : Out → Bool
  | Out.emitOpen => true
  | _ => false

/-- Test for a successful engine close call in a trace. -/
def isEngineOk : Out → Bool
  | Out.engineClose true => true
  | _ => false

/-- Test for any engine close call in a trace. -/
def isEngineCall : Out → Bool
  | Out.engineClose _ => true
  | _ => false

/-- Test for a close request failed by `Schedule` on a permanently closed
    connection; each such failure leaks the reference `Database::Close`
    took before calling `Schedule`. -/
def isCloseLeak : Out → Bool
  | Out.failClosed _ WorkKind.wclose _ => true
  | _ => false

/-- Test for a failed `EIO_BeginClose` assertion. -/
def isAssert : Out → Bool
  | Out.assertFailed => true
  | _ => false

/-- Ids of the records whose work was dispatched, in trace order. -/
def dispatchIds (l : List Out) : List Nat :=
  l.filterMap fun o =>
    match o with
    | Out.dispatched i _ => some i
    | _ => none

/-- Number of "open" events in a trace. -/
def emitOpens (l : List Out) : Nat := l.countP isEmitOpen

/-- Number of successful engine close calls in a trace. -/
def engineOks (l : List Out) : Nat := l.countP isEngineOk

/-- Number of engine close calls (successful or not) in a trace. -/
def engineCalls (l : List Out) : Nat := l.countP isEngineCall

/-- Number of leaked close references in a trace. -/
def closeLeaks (l : List Out) : Nat := l.countP isCloseLeak

/-- Number of failed assertions in a trace. -/
def asserts (l : List Out) : Nat := l.countP isAssert

/-- Test for a close record. -/
def isCloseCall (c : Call) : Bool :=
  match c.kind with
  | WorkKind.wclose => true
  | WorkKind.wshared => false

/-- Number of queued close records (each holds a reference taken by
    `Database::Close`). -/
def queuedCloses (q : List Call) : Nat := q.countP isCloseCall

/-- One if an open dispatch is in flight. -/
def obit (s : DB) : Nat := if s.openInFlight.isSome then 1 else 0

/-- One if a close dispatch is in flight. -/
def cbit (s : DB) : Nat := if s.closeInFlight.isSome then 1 else 0

/-- One if a destruct dispatch is in flight. -/
def dbit (s : DB) : Nat := if s.destructInFlight then 1 else 0

/-- One if the native handle is present. -/
def hbit (s : DB) : Nat := if s.handle then 1 else 0

/-- All outstanding holders of a reference: in-flight open, in-flight close,
    in-flight shared operations, queued close records. -/
def outstanding (s : DB) : Nat := obit s + cbit s + s.pending + queuedCloses s.queue

/-- The reference-count ledger: `refs` equals the outstanding work plus one
    permanently leaked reference per close request failed on a permanently
    closed connection. -/
def refsOK (s : DB) (l : List Out) : Prop :=
  s.refs = outstanding s + closeLeaks l

/-- Same ledger for the event-loop marker, which additionally counts an
    in-flight destruct. -/
def evOK (s : DB) (l : List Out) : Prop :=
  s.evRefs = outstanding s + closeLeaks l + dbit s

/-- Between events, an open unlocked connection's queue has been drained:
    it is empty, or its front is an exclusive record waiting on
    `pending > 0`. -/
def drainedOK (s : DB) : Prop :=
  s.open_ = true → s.locked = false →
    s.queue = [] ∨ ∃ c rest, s.queue = c :: rest ∧ c.exclusive = true ∧ 0 < s.pending

/-- Every queued close record was submitted exclusive (`Database::Close`
    passes `exclusive = true`). -/
def wfQueue (s : DB) : Prop :=
  ∀ c ∈ s.queue, c.kind = WorkKind.wclose → c.exclusive = true

/-- The reachable-state invariant, relative to the output trace so far. -/
structure Inv (s : DB) (l : List Out) : Prop where
  refs_eq : refsOK s l
  ev_eq : evOK s l
  open_le : emitOpens l ≤ 1
  close_le : engineOks l + hbit s ≤ emitOpens l
  calls_ge : emitOpens l ≤ engineCalls l + hbit s
  opening : s.openInFlight.isSome = true →
    emitOpens l = 0 ∧ s.open_ = false ∧ s.handle = false ∧ s.closeInFlight = none
  closing : s.closeInFlight.isSome = true → s.locked = true ∧ s.handle = true
  open_handle : s.open_ = true → s.handle = true ∨ s.deleted = true
  collectedZ : s.collected = true → s.refs = 0
  destructing : s.destructInFlight = true →
    s.collected = true ∧ s.handle = true ∧ s.deleted = false
  deletedF : s.deleted = true →
    s.handle = false ∧ s.destructInFlight = false ∧ s.collected = true
  queue_wf : wfQueue s
  no_assert : asserts l = 0
  drained : drainedOK s

/-- Outputs that carry no lifecycle observation: no "open" event, no engine
    close call, no leaked close reference, no failed assertion. -/
def quietOuts (m : List Out) : Prop :=
  emitOpens m = 0 ∧ engineCalls m = 0 ∧ closeLeaks m = 0 ∧ asserts m = 0

/-- The part of the invariant that the drain loop consumes and preserves. -/
def DrainPre (db : DB) (l : List Out) : Prop :=
  db.deleted = false ∧ db.collected = false ∧ refsOK db l ∧ evOK db l ∧
  (db.closeInFlight.isSome = true → db.locked = true ∧ db.handle = true) ∧
  (db.open_ = true → db.handle = true) ∧ wfQueue db

/-- The connection is permanently closed: a close has completed and no
    further activity is possible. -/
def permanentlyClosed (db : DB) : Prop := db.open_ = false ∧ db.locked = true

instance (db : DB) : Decidable (permanentlyClosed db) :=
  inferInstanceAs (Decidable (db.open_ = false ∧ db.locked = true))

/-- Modelled from the spec: the `submit(record, exclusive)` case analysis of
    section 4.1, stated in the spec's own terms, for comparison with
    `Schedule`: fail immediately (never queue) on a permanently closed
    connection; append to the queue when not yet open, locked, or exclusive
    with `pending > 0`; otherwise execute the record's work immediately. -/
def submitSpec (db : DB) (c : Call) : DB × List Out :=
  if permanentlyClosed db then
    (db, [Out.failClosed c.id c.kind c.hasCb])
  else if db.open_ = false ∨ db.locked = true ∨ (c.exclusive = true ∧ 0 < db.pending) then
    ({ db with queue := db.queue ++ [c] }, [])
  else
    c.exec db

/-- A concrete open, unlocked state with one pending shared operation and an
    exclusive close record waiting at the queue front. -/
def dbWaitingClose : DB :=
  { open_ := true, locked := false, pending := 1
    queue := [⟨WorkKind.wclose, 2, false, true⟩], refs := 2, evRefs := 2
    handle := true, openInFlight := none, closeInFlight := none
    destructInFlight := false, collected := false, deleted := false }

/-- A concrete permanently closed state with two queued shared records. -/
def dbClosedQueued : DB :=
  { open_ := false, locked := true, pending := 0
    queue := [⟨WorkKind.wshared, 1, true, false⟩, ⟨WorkKind.wshared, 2, true, false⟩]
    refs := 0, evRefs := 0, handle := false, openInFlight := none
    closeInFlight := none, destructInFlight := false, collected := false
    deleted := false }

/-- A concrete state with a close dispatch in flight. -/
def dbClosing : DB :=
  { open_ := true, locked := true, pending := 0, queue := []
    refs := 1, evRefs := 1, handle := true, openInFlight := none
    closeInFlight := some ⟨1, true⟩, destructInFlight := false
    collected := false, deleted := false }

/-- A concrete state as a failed open leaves the connection. -/
def dbOpenFailed : DB :=
  { open_ := false, locked := false, pending := 0, queue := []
    refs := 0, evRefs := 0, handle := false, openInFlight := none
    closeInFlight := none, destructInFlight := false, collected := false
    deleted := false }

/-! ### Basic lemmas about the drain loop -/

theorem exec_queue (c : Call) (db : DB) : (c.exec db).1.queue = db.queue := by
  cases hk : c.kind <;> simp [Call.exec, EIO_BeginClose, beginShared, hk]

theorem drainFuel_succ_cons (fuel : Nat) (db : DB) (c : Call) (rest : List Call)
    (hq : db.queue = c :: rest) :
    drainFuel (fuel + 1) db =
      if !db.open_ || db.locked then (db, [])
      else if c.exclusive && !(db.pending == 0) then (db, [])
      else
        ((drainFuel fuel { (c.exec db).1 with queue := rest }).1,
         (c.exec db).2 ++ (drainFuel fuel { (c.exec db).1 with queue := rest }).2) := by
  simp only [drainFuel]
  rw [hq]

theorem drainFuel_nil (fuel : Nat) (db : DB) (hq : db.queue = []) :
    drainFuel fuel db = (db, []) := by
  cases fuel with
  | zero => rfl
  | succ n => simp only [drainFuel]; rw [hq]

theorem drainFuel_blocked (fuel : Nat) (db : DB)
    (h : db.open_ = false ∨ db.locked = true) :
    drainFuel fuel db = (db, []) := by
  cases fuel with
  | zero => rfl
  | succ n =>
    cases hq : db.queue with
    | nil => exact drainFuel_nil _ _ hq
    | cons c rest =>
      rw [drainFuel_succ_cons n db c rest hq]
      have hcond : (!db.open_ || db.locked) = true := by
        rcases h with h | h <;> simp [h]
      simp [hcond]

theorem drain_blocked (db : DB) (h : db.open_ = false ∨ db.locked = true) :
    drain db = (db, []) := drainFuel_blocked _ _ h

/-- The drain loop dispatches an initial segment of the queue, in order, and
    leaves exactly the rest queued. -/
theorem drainFuel_fifo : ∀ (fuel : Nat) (db : DB),
    ∃ k, dispatchIds (drainFuel fuel db).2 = (db.queue.take k).map Call.id ∧
         (drainFuel fuel db).1.queue = db.queue.drop k := by
  intro fuel
  induction fuel with
  | zero => intro db; exact ⟨0, by simp [drainFuel, dispatchIds], by simp [drainFuel]⟩
  | succ n ih =>
    intro db
    cases hq : db.queue with
    | nil =>
      refine ⟨0, ?_, ?_⟩ <;> simp [drainFuel_nil (n + 1) db hq, hq, dispatchIds]
    | cons c rest =>
      rw [drainFuel_succ_cons n db c rest hq]
      by_cases h1 : (!db.open_ || db.locked) = true
      · refine ⟨0, ?_, ?_⟩ <;> simp [h1, hq, dispatchIds]
      · rw [if_neg h1]
        by_cases h2 : (c.exclusive && !(db.pending == 0)) = true
        · refine ⟨0, ?_, ?_⟩ <;> simp [h2, hq, dispatchIds]
        · rw [if_neg h2]
          obtain ⟨k, hids, hqueue⟩ := ih { (c.exec db).1 with queue := rest }
          refine ⟨k + 1, ?_, ?_⟩
          · have hexec : dispatchIds (c.exec db).2 = [c.id] := by
              cases hk : c.kind <;>
                simp [Call.exec, EIO_BeginClose, beginShared, hk, dispatchIds] <;>
                split <;> simp [dispatchIds]
            simp only [dispatchIds, List.filterMap_append] at hids ⊢
            simp only [dispatchIds] at hexec
            simp [hexec, hids, hq]
          · simpa [hq] using hqueue

/-! ### Preservation of the invariant by the drain loop -/

theorem quietOuts_nil : quietOuts [] := by
  refine ⟨rfl, rfl, rfl, rfl⟩

theorem quietOuts_append {a b : List Out} (ha : quietOuts a) (hb : quietOuts b) :
    quietOuts (a ++ b) := by
  obtain ⟨h1, h2, h3, h4⟩ := ha
  obtain ⟨g1, g2, g3, g4⟩ := hb
  refine ⟨?_, ?_, ?_, ?_⟩ <;>
    simp_all [quietOuts, emitOpens, engineCalls, closeLeaks, asserts, List.countP_append]

theorem quietOuts_dispatched (i : Nat) (k : WorkKind) :
    quietOuts [Out.dispatched i k] := by
  refine ⟨?_, ?_, ?_, ?_⟩ <;>
    simp [emitOpens, engineCalls, closeLeaks, asserts, List.countP_cons,
          isEmitOpen, isEngineCall, isCloseLeak, isAssert]

/-- The drain loop preserves the reference ledger and the lifecycle facts,
    changes none of the open/handle/in-flight-open/destruct fields, emits only
    dispatch outputs, and leaves the queue in drained shape. -/
theorem drainFuel_inv : ∀ (fuel : Nat) (db : DB) (l : List Out),
    DrainPre db l → db.queue.length ≤ fuel →
    DrainPre (drainFuel fuel db).1 (l ++ (drainFuel fuel db).2) ∧
    (drainFuel fuel db).1.open_ = db.open_ ∧
    (drainFuel fuel db).1.handle = db.handle ∧
    (drainFuel fuel db).1.openInFlight = db.openInFlight ∧
    (drainFuel fuel db).1.destructInFlight = db.destructInFlight ∧
    quietOuts (drainFuel fuel db).2 ∧
    drainedOK (drainFuel fuel db).1 := by
  intro fuel
  induction fuel with
  | zero =>
    intro db l hpre hlen
    have hq : db.queue = [] := List.eq_nil_of_length_eq_zero (Nat.le_zero.mp hlen)
    rw [drainFuel_nil 0 db hq]
    exact ⟨by simpa using hpre, rfl, rfl, rfl, rfl, quietOuts_nil,
           fun _ _ => Or.inl hq⟩
  | succ n ih =>
    intro db l hpre hlen
    cases hq : db.queue with
    | nil =>
      rw [drainFuel_nil (n + 1) db hq]
      exact ⟨by simpa using hpre, rfl, rfl, rfl, rfl, quietOuts_nil,
             fun _ _ => Or.inl hq⟩
    | cons c rest =>
      rw [drainFuel_succ_cons n db c rest hq]
      by_cases h1 : (!db.open_ || db.locked) = true
      · rw [if_pos h1]
        refine ⟨by simpa using hpre, rfl, rfl, rfl, rfl, quietOuts_nil, ?_⟩
        intro ho hl
        rw [ho, hl] at h1
        simp at h1
      · rw [if_neg h1]
        have ho : db.open_ = true := by
          cases hval : db.open_
          · exact absurd (by simp [hval]) h1
          · rfl
        have hl : db.locked = false := by
          cases hval : db.locked
          · rfl
          · exact absurd (by simp [hval]) h1
        obtain ⟨hdel, hcol, hrefs, hev, hcif, hoh, hwf⟩ := hpre
        have hlen2 : rest.length ≤ n := by
          rw [hq] at hlen
          simpa using hlen
        have hcmem : c ∈ db.queue := by rw [hq]; exact List.mem_cons_self c rest
        by_cases h2 : (c.exclusive && !(db.pending == 0)) = true
        · rw [if_pos h2]
          have h2' : c.exclusive = true ∧ db.pending ≠ 0 := by
            simpa using h2
          have hp : 0 < db.pending := Nat.pos_of_ne_zero h2'.2
          refine ⟨?_, rfl, rfl, rfl, rfl, quietOuts_nil,
                  fun _ _ => Or.inr ⟨c, rest, hq, h2'.1, hp⟩⟩
          simpa using (⟨hdel, hcol, hrefs, hev, hcif, hoh, hwf⟩ : DrainPre db l)
        · rw [if_neg h2]
          have hhandle : db.handle = true := hoh ho
          have hcn : db.closeInFlight = none := by
            cases hcc : db.closeInFlight with
            | none => rfl
            | some b =>
              have := (hcif (by simp [hcc])).1
              rw [hl] at this
              exact absurd this (by simp)
          cases hk : c.kind with
          | wshared =>
            have hexec : c.exec db =
                ({ db with pending := db.pending + 1, refs := db.refs + 1,
                           evRefs := db.evRefs + 1 },
                 [Out.dispatched c.id WorkKind.wshared]) := by
              simp [Call.exec, hk, beginShared]
            rw [hexec]
            have hpre2 : DrainPre
                { db with pending := db.pending + 1, refs := db.refs + 1,
                          evRefs := db.evRefs + 1, queue := rest }
                (l ++ [Out.dispatched c.id WorkKind.wshared]) := by
              have hqc : queuedCloses (c :: rest) = queuedCloses rest := by
                simp [queuedCloses, List.countP_cons, isCloseCall, hk]
              have hleak : closeLeaks (l ++ [Out.dispatched c.id WorkKind.wshared])
                  = closeLeaks l := by
                simp [closeLeaks, List.countP_append, List.countP_cons, isCloseLeak]
              refine ⟨hdel, hcol, ?_, ?_, ?_, ?_, ?_⟩
              · unfold refsOK outstanding obit cbit at hrefs ⊢
                rw [hq, hqc] at hrefs
                simp [hleak] at hrefs ⊢
                omega
              · unfold evOK outstanding obit cbit dbit at hev ⊢
                rw [hq, hqc] at hev
                simp [hleak] at hev ⊢
                omega
              · intro hs
                exact ⟨(hcif (by simpa using hs)).1, (hcif (by simpa using hs)).2⟩
              · intro _
                exact hhandle
              · intro x hx
                exact hwf x (by rw [hq]; exact List.mem_cons_of_mem c hx)
            obtain ⟨p1, p2, p3, p4, p5, p6, p7⟩ :=
              ih _ (l ++ [Out.dispatched c.id WorkKind.wshared]) hpre2 (by simpa using hlen2)
            refine ⟨?_, by simpa using p2, by simpa using p3, by simpa using p4,
                    by simpa using p5,
                    quietOuts_append (quietOuts_dispatched _ _) p6, p7⟩
            simpa [List.append_assoc] using p1
          | wclose =>
            have hce : c.exclusive = true := hwf c hcmem hk
            have hp0 : db.pending = 0 := by
              rw [hce] at h2
              by_cases hval : db.pending = 0
              · exact hval
              · exact absurd (by simp [hval]) h2
            have hexec : c.exec db =
                ({ db with locked := true, closeInFlight := some ⟨c.id, c.hasCb⟩ },
                 [Out.dispatched c.id WorkKind.wclose]) := by
              simp [Call.exec, hk, EIO_BeginClose, ho, hl, hp0]
            rw [hexec]
            have hpre2 : DrainPre
                { db with locked := true, closeInFlight := some ⟨c.id, c.hasCb⟩,
                          queue := rest }
                (l ++ [Out.dispatched c.id WorkKind.wclose]) := by
              have hqc : queuedCloses (c :: rest) = queuedCloses rest + 1 := by
                simp [queuedCloses, List.countP_cons, isCloseCall, hk]
              have hleak : closeLeaks (l ++ [Out.dispatched c.id WorkKind.wclose])
                  = closeLeaks l := by
                simp [closeLeaks, List.countP_append, List.countP_cons, isCloseLeak]
              refine ⟨hdel, hcol, ?_, ?_, ?_, ?_, ?_⟩
              · unfold refsOK outstanding obit cbit at hrefs ⊢
                rw [hq, hqc, hcn] at hrefs
                simp [hleak] at hrefs ⊢
                omega
              · unfold evOK outstanding obit cbit dbit at hev ⊢
                rw [hq, hqc, hcn] at hev
                simp [hleak] at hev ⊢
                omega
              · intro _
                exact ⟨rfl, hhandle⟩
              · intro _
                exact hhandle
              · intro x hx
                exact hwf x (by rw [hq]; exact List.mem_cons_of_mem c hx)
            obtain ⟨p1, p2, p3, p4, p5, p6, p7⟩ :=
              ih _ (l ++ [Out.dispatched c.id WorkKind.wclose]) hpre2 (by simpa using hlen2)
            refine ⟨?_, by simpa using p2, by simpa using p3, by simpa using p4,
                    by simpa using p5,
                    quietOuts_append (quietOuts_dispatched _ _) p6, p7⟩
            simpa [List.append_assoc] using p1

/-! ### Lemmas about `Process` and the trace counters -/

@[simp] theorem emitOpens_nil : emitOpens [] = 0 := rfl

@[simp] theorem emitOpens_append (a b : List Out) :
    emitOpens (a ++ b) = emitOpens a + emitOpens b := List.countP_append _ _ _

@[simp] theorem emitOpens_cons (o : Out) (l : List Out) :
    emitOpens (o :: l) = emitOpens l + if isEmitOpen o = true then 1 else 0 :=
  List.countP_cons _ _ _

@[simp] theorem engineOks_nil : engineOks [] = 0 := rfl

@[simp] theorem engineOks_append (a b : List Out) :
    engineOks (a ++ b) = engineOks a + engineOks b := List.countP_append _ _ _

@[simp] theorem engineOks_cons (o : Out) (l : List Out) :
    engineOks (o :: l) = engineOks l + if isEngineOk o = true then 1 else 0 :=
  List.countP_cons _ _ _

@[simp] theorem engineCalls_nil : engineCalls [] = 0 := rfl

@[simp] theorem engineCalls_append (a b : List Out) :
    engineCalls (a ++ b) = engineCalls a + engineCalls b := List.countP_append _ _ _

@[simp] theorem engineCalls_cons (o : Out) (l : List Out) :
    engineCalls (o :: l) = engineCalls l + if isEngineCall o = true then 1 else 0 :=
  List.countP_cons _ _ _

@[simp] theorem closeLeaks_nil : closeLeaks [] = 0 := rfl

@[simp] theorem closeLeaks_append (a b : List Out) :
    closeLeaks (a ++ b) = closeLeaks a + closeLeaks b := List.countP_append _ _ _

@[simp] theorem closeLeaks_cons (o : Out) (l : List Out) :
    closeLeaks (o :: l) = closeLeaks l + if isCloseLeak o = true then 1 else 0 :=
  List.countP_cons _ _ _

@[simp] theorem asserts_nil : asserts [] = 0 := rfl

@[simp] theorem asserts_append (a b : List Out) :
    asserts (a ++ b) = asserts a + asserts b := List.countP_append _ _ _

@[simp] theorem asserts_cons (o : Out) (l : List Out) :
    asserts (o :: l) = asserts l + if isAssert o = true then 1 else 0 :=
  List.countP_cons _ _ _

@[simp] theorem queuedCloses_nil : queuedCloses [] = 0 := rfl

@[simp] theorem queuedCloses_append (a b : List Call) :
    queuedCloses (a ++ b) = queuedCloses a + queuedCloses b := List.countP_append _ _ _

@[simp] theorem queuedCloses_cons (c : Call) (q : List Call) :
    queuedCloses (c :: q) = queuedCloses q + if isCloseCall c = true then 1 else 0 :=
  List.countP_cons _ _ _

theorem engineOks_le_engineCalls (l : List Out) : engineOks l ≤ engineCalls l := by
  induction l with
  | nil => simp
  | cons o rest ih =>
    have : (if isEngineOk o = true then 1 else 0) ≤ (if isEngineCall o = true then 1 else 0) := by
      cases o <;> simp [isEngineOk, isEngineCall] <;> split <;> simp
    simp only [engineOks_cons, engineCalls_cons]
    omega

/-- If the scheduler cannot run (not open, or locked), `Process` leaves the
    state unchanged. -/
theorem Process_state_blocked (db : DB) (h : db.open_ = false ∨ db.locked = true) :
    (Process db).1 = db := by
  unfold Process
  by_cases hc : (!db.open_ && db.locked && !db.queue.isEmpty) = true
  · rw [if_pos hc]
  · rw [if_neg hc]
    rw [show drain db = (db, []) from drainFuel_blocked _ _ h]

/-- `Process` preserves the drain invariant, changes no lifecycle field, and
    emits only quiet outputs. -/
theorem Process_inv (db : DB) (l : List Out) (hpre : DrainPre db l) :
    DrainPre (Process db).1 (l ++ (Process db).2) ∧
    (Process db).1.open_ = db.open_ ∧
    (Process db).1.handle = db.handle ∧
    (Process db).1.openInFlight = db.openInFlight ∧
    (Process db).1.destructInFlight = db.destructInFlight ∧
    quietOuts (Process db).2 ∧
    drainedOK (Process db).1 := by
  unfold Process
  by_cases hc : (!db.open_ && db.locked && !db.queue.isEmpty) = true
  · rw [if_pos hc]
    have ho : db.open_ = false := by
      cases hval : db.open_
      · rfl
      · rw [hval] at hc; simp at hc
    obtain ⟨a1, a2, a3, a4, a5, a6, a7⟩ := hpre
    refine ⟨⟨a1, a2, ?_, ?_, a5, a6, a7⟩, rfl, rfl, rfl, rfl, ?_, ?_⟩
    · unfold refsOK at a3 ⊢
      simpa [isCloseLeak] using a3
    · unfold evOK at a4 ⊢
      simpa [isCloseLeak] using a4
    · exact ⟨by simp [isEmitOpen], by simp [isEngineCall],
             by simp [isCloseLeak], by simp [isAssert]⟩
    · intro hov
      rw [ho] at hov
      cases hov
  · rw [if_neg hc]
    exact drainFuel_inv db.queue.length db l hpre (Nat.le_refl _)

/-- A zero reference count forces every ledger component to zero. -/
theorem ledger_zero (s : DB) (l : List Out) (hr : refsOK s l) (h0 : s.refs = 0) :
    s.openInFlight = none ∧ s.closeInFlight = none ∧ s.pending = 0 ∧
    queuedCloses s.queue = 0 ∧ closeLeaks l = 0 := by
  unfold refsOK outstanding obit cbit at hr
  rw [h0] at hr
  cases ho : s.openInFlight with
  | some b =>
    rw [ho] at hr
    cases hcf : s.closeInFlight <;> rw [hcf] at hr <;> simp at hr <;> omega
  | none =>
    cases hcf : s.closeInFlight with
    | some b =>
      rw [ho, hcf] at hr
      simp at hr
      omega
    | none =>
      rw [ho, hcf] at hr
      simp at hr
      exact ⟨rfl, rfl, by omega, by omega, by omega⟩

/-- Adding quiet outputs while leaving the state alone preserves the
    invariant. -/
theorem Inv_extend (s : DB) (l m : List Out) (hInv : Inv s l) (hm : quietOuts m) :
    Inv s (l ++ m) := by
  obtain ⟨q1, q2, q3, q4⟩ := hm
  have hok : engineOks m = 0 :=
    Nat.le_zero.mp (q2 ▸ engineOks_le_engineCalls m)
  refine ⟨?_, ?_, ?_, ?_, ?_, ?_, hInv.closing, hInv.open_handle, hInv.collectedZ,
          hInv.destructing, hInv.deletedF, hInv.queue_wf, ?_, hInv.drained⟩
  · have hr := hInv.refs_eq
    unfold refsOK at hr ⊢
    simp [q3, hr]
  · have hv := hInv.ev_eq
    unfold evOK at hv ⊢
    simp [q3, hv]
  · simp [q1, hInv.open_le]
  · simpa [q1, hok] using hInv.close_le
  · simpa [q1, q2] using hInv.calls_ge
  · intro hs
    simpa [q1] using hInv.opening hs
  · simp [q4, hInv.no_assert]

/-! ### Preservation of the invariant by each event handler -/

theorem Inv_schedule_shared (s : DB) (l : List Out) (id : Nat) (hcb : Bool)
    (hInv : Inv s l) (hdel : s.deleted = false) (hcol : s.collected = false) :
    Inv (Schedule s ⟨WorkKind.wshared, id, hcb, false⟩).1
        (l ++ (Schedule s ⟨WorkKind.wshared, id, hcb, false⟩).2) := by
  simp only [Schedule, Bool.false_and, Bool.or_false]
  by_cases h1 : (!s.open_ && s.locked) = true
  · rw [if_pos h1]
    exact Inv_extend s l _ hInv
      ⟨by simp [isEmitOpen], by simp [isEngineCall], by simp [isCloseLeak], by simp [isAssert]⟩
  · rw [if_neg h1]
    by_cases h2 : (!s.open_ || s.locked) = true
    · rw [if_pos h2]
      refine ⟨?_, ?_, ?_, ?_, ?_, ?_, ?_, ?_, ?_, ?_, ?_, ?_, ?_, ?_⟩
      · have hr := hInv.refs_eq
        unfold refsOK outstanding obit cbit at hr ⊢
        simp [isCloseCall]
        omega
      · have hv := hInv.ev_eq
        unfold evOK outstanding obit cbit dbit at hv ⊢
        simp [isCloseCall]
        omega
      · simpa using hInv.open_le
      · have hce := hInv.close_le
        unfold hbit at hce ⊢
        simpa using hce
      · have hcg := hInv.calls_ge
        unfold hbit at hcg ⊢
        simpa using hcg
      · intro hs
        simpa using hInv.opening (by simpa using hs)
      · intro hs
        simpa using hInv.closing (by simpa using hs)
      · intro hov
        simpa using hInv.open_handle (by simpa using hov)
      · intro hcc
        simpa using hInv.collectedZ (by simpa using hcc)
      · intro hdf
        simpa using hInv.destructing (by simpa using hdf)
      · intro hdd
        simpa using hInv.deletedF (by simpa using hdd)
      · intro x hx hk
        rcases (by simpa using hx :
            x ∈ s.queue ∨ x = (⟨WorkKind.wshared, id, hcb, false⟩ : Call)) with hx' | hx'
        · exact hInv.queue_wf x hx' hk
        · rw [hx'] at hk
          exact WorkKind.noConfusion hk
      · simpa using hInv.no_assert
      · intro ho' hl'
        have ho'' : s.open_ = true := by simpa using ho'
        have hl'' : s.locked = false := by simpa using hl'
        rw [ho'', hl''] at h2
        simp at h2
    · rw [if_neg h2]
      have ho : s.open_ = true := by
        cases hval : s.open_
        · exact absurd (by simp [hval]) h2
        · rfl
      have hl : s.locked = false := by
        cases hval : s.locked
        · rfl
        · exact absurd (by simp [hval]) h2
      have hex : Call.exec ⟨WorkKind.wshared, id, hcb, false⟩ s =
          ({ s with pending := s.pending + 1, refs := s.refs + 1, evRefs := s.evRefs + 1 },
           [Out.dispatched id WorkKind.wshared]) := by
        simp [Call.exec, beginShared]
      rw [hex]
      refine ⟨?_, ?_, ?_, ?_, ?_, ?_, ?_, ?_, ?_, ?_, ?_, ?_, ?_, ?_⟩
      · have hr := hInv.refs_eq
        unfold refsOK outstanding obit cbit at hr ⊢
        simp [isCloseLeak]
        omega
      · have hv := hInv.ev_eq
        unfold evOK outstanding obit cbit dbit at hv ⊢
        simp [isCloseLeak]
        omega
      · simpa [isEmitOpen] using hInv.open_le
      · have hce := hInv.close_le
        unfold hbit at hce ⊢
        simpa [isEngineOk, isEmitOpen] using hce
      · have hcg := hInv.calls_ge
        unfold hbit at hcg ⊢
        simpa [isEngineCall, isEmitOpen] using hcg
      · intro hs
        have := (hInv.opening (by simpa using hs)).2.1
        rw [ho] at this
        cases this
      · intro hs
        simpa using hInv.closing (by simpa using hs)
      · intro hov
        simpa using hInv.open_handle (by simpa using hov)
      · intro hcc
        have : s.collected = true := by simpa using hcc
        rw [hcol] at this
        cases this
      · intro hdf
        have := (hInv.destructing (by simpa using hdf)).1
        rw [hcol] at this
        cases this
      · intro hdd
        have : s.deleted = true := by simpa using hdd
        rw [hdel] at this
        cases this
      · intro x hx hk
        exact hInv.queue_wf x (by simpa using hx) hk
      · simpa [isAssert] using hInv.no_assert
      · intro ho' hl'
        rcases hInv.drained ho hl with hq | ⟨c0, rest0, hq0, hex0, hp0⟩
        · exact Or.inl (by simpa using hq)
        · exact Or.inr ⟨c0, rest0, by simpa using hq0, hex0, by simp⟩

theorem Inv_schedule_close (s : DB) (l : List Out) (id : Nat) (hcb : Bool)
    (hInv : Inv s l) (hdel : s.deleted = false) (hcol : s.collected = false) :
    Inv (Schedule { s with refs := s.refs + 1, evRefs := s.evRefs + 1 }
           ⟨WorkKind.wclose, id, hcb, true⟩).1
        (l ++ (Schedule { s with refs := s.refs + 1, evRefs := s.evRefs + 1 }
           ⟨WorkKind.wclose, id, hcb, true⟩).2) := by
  simp only [Schedule, Bool.true_and]
  by_cases h1 : (!s.open_ && s.locked) = true
  · rw [if_pos (by simpa using h1)]
    refine ⟨?_, ?_, ?_, ?_, ?_, ?_, ?_, ?_, ?_, ?_, ?_, ?_, ?_, ?_⟩
    · have hr := hInv.refs_eq
      unfold refsOK outstanding obit cbit at hr ⊢
      simp [isCloseLeak]
      omega
    · have hv := hInv.ev_eq
      unfold evOK outstanding obit cbit dbit at hv ⊢
      simp [isCloseLeak]
      omega
    · simpa [isEmitOpen] using hInv.open_le
    · have hce := hInv.close_le
      unfold hbit at hce ⊢
      simpa [isEngineOk, isEmitOpen] using hce
    · have hcg := hInv.calls_ge
      unfold hbit at hcg ⊢
      simpa [isEngineCall, isEmitOpen] using hcg
    · intro hs
      simpa [isEmitOpen] using hInv.opening (by simpa using hs)
    · intro hs
      simpa using hInv.closing (by simpa using hs)
    · intro hov
      simpa using hInv.open_handle (by simpa using hov)
    · intro hcc
      have : s.collected = true := by simpa using hcc
      rw [hcol] at this
      cases this
    · intro hdf
      have := (hInv.destructing (by simpa using hdf)).1
      rw [hcol] at this
      cases this
    · intro hdd
      have : s.deleted = true := by simpa using hdd
      rw [hdel] at this
      cases this
    · intro x hx hk
      exact hInv.queue_wf x (by simpa using hx) hk
    · simpa [isAssert] using hInv.no_assert
    · intro ho' hl'
      have ho'' : s.open_ = true := by simpa using ho'
      have hl'' : s.locked = false := by simpa using hl'
      rw [ho'', hl''] at h1
      simp at h1
  · rw [if_neg (by simpa using h1)]
    by_cases h2 : (!s.open_ || s.locked || !(s.pending == 0)) = true
    · rw [if_pos (by simpa using h2)]
      refine ⟨?_, ?_, ?_, ?_, ?_, ?_, ?_, ?_, ?_, ?_, ?_, ?_, ?_, ?_⟩
      · have hr := hInv.refs_eq
        unfold refsOK outstanding obit cbit at hr ⊢
        simp [isCloseCall]
        omega
      · have hv := hInv.ev_eq
        unfold evOK outstanding obit cbit dbit at hv ⊢
        simp [isCloseCall]
        omega
      · simpa using hInv.open_le
      · have hce := hInv.close_le
        unfold hbit at hce ⊢
        simpa using hce
      · have hcg := hInv.calls_ge
        unfold hbit at hcg ⊢
        simpa using hcg
      · intro hs
        simpa using hInv.opening (by simpa using hs)
      · intro hs
        simpa using hInv.closing (by simpa using hs)
      · intro hov
        simpa using hInv.open_handle (by simpa using hov)
      · intro hcc
        have : s.collected = true := by simpa using hcc
        rw [hcol] at this
        cases this
      · intro hdf
        have := (hInv.destructing (by simpa using hdf)).1
        rw [hcol] at this
        cases this
      · intro hdd
        have : s.deleted = true := by simpa using hdd
        rw [hdel] at this
        cases this
      · intro x hx hk
        rcases (by simpa using hx :
            x ∈ s.queue ∨ x = (⟨WorkKind.wclose, id, hcb, true⟩ : Call)) with hx' | hx'
        · exact hInv.queue_wf x hx' hk
        · rw [hx']
      · simpa using hInv.no_assert
      · intro ho' hl'
        have ho'' : s.open_ = true := by simpa using ho'
        have hl'' : s.locked = false := by simpa using hl'
        rw [ho'', hl''] at h2
        have hpz : s.pending ≠ 0 := by
          intro hc
          rw [hc] at h2
          simp at h2
        have hpos : 0 < s.pending := Nat.pos_of_ne_zero hpz
        rcases hInv.drained ho'' hl'' with hq | ⟨c0, rest0, hq0, hex0, hp0⟩
        · exact Or.inr ⟨⟨WorkKind.wclose, id, hcb, true⟩, [], by simp [hq], rfl,
                        by simpa using hpos⟩
        · exact Or.inr ⟨c0, rest0 ++ [⟨WorkKind.wclose, id, hcb, true⟩],
                        by simp [hq0], hex0, by simpa using hp0⟩
    · rw [if_neg (by simpa using h2)]
      have ho : s.open_ = true := by
        cases hval : s.open_
        · exact absurd (by simp [hval]) h2
        · rfl
      have hl : s.locked = false := by
        cases hval : s.locked
        · rfl
        · exact absurd (by simp [hval]) h2
      have hp0 : s.pending = 0 := by
        by_cases hval : s.pending = 0
        · exact hval
        · exact absurd (by simp [hval]) h2
      have hhandle : s.handle = true := by
        rcases hInv.open_handle ho with h | h
        · exact h
        · rw [hdel] at h; cases h
      have hcn : s.closeInFlight = none := by
        cases hcc : s.closeInFlight with
        | none => rfl
        | some b =>
          have := (hInv.closing (by simp [hcc])).1
          rw [hl] at this
          cases this
      have hex : Call.exec ⟨WorkKind.wclose, id, hcb, true⟩
            { s with refs := s.refs + 1, evRefs := s.evRefs + 1 } =
          ({ s with refs := s.refs + 1, evRefs := s.evRefs + 1,
                    locked := true, closeInFlight := some ⟨id, hcb⟩ },
           [Out.dispatched id WorkKind.wclose]) := by
        simp [Call.exec, EIO_BeginClose, ho, hl, hp0]
      rw [hex]
      refine ⟨?_, ?_, ?_, ?_, ?_, ?_, ?_, ?_, ?_, ?_, ?_, ?_, ?_, ?_⟩
      · have hr := hInv.refs_eq
        unfold refsOK outstanding obit cbit at hr ⊢
        rw [hcn] at hr
        simp [isCloseLeak] at hr ⊢
        omega
      · have hv := hInv.ev_eq
        unfold evOK outstanding obit cbit dbit at hv ⊢
        rw [hcn] at hv
        simp [isCloseLeak] at hv ⊢
        omega
      · simpa [isEmitOpen] using hInv.open_le
      · have hce := hInv.close_le
        unfold hbit at hce ⊢
        simpa [isEngineOk, isEmitOpen] using hce
      · have hcg := hInv.calls_ge
        unfold hbit at hcg ⊢
        simpa [isEngineCall, isEmitOpen] using hcg
      · intro hs
        have := (hInv.opening (by simpa using hs)).2.1
        rw [ho] at this
        cases this
      · intro _
        exact ⟨rfl, by simpa using hhandle⟩
      · intro hov
        simpa using hInv.open_handle (by simpa using hov)
      · intro hcc
        have : s.collected = true := by simpa using hcc
        rw [hcol] at this
        cases this
      · intro hdf
        have := (hInv.destructing (by simpa using hdf)).1
        rw [hcol] at this
        cases this
      · intro hdd
        have : s.deleted = true := by simpa using hdd
        rw [hdel] at this
        cases this
      · intro x hx hk
        exact hInv.queue_wf x (by simpa using hx) hk
      · simpa [isAssert] using hInv.no_assert
      · intro ho' hl'
        have : (true : Bool) = false := by simpa using hl'
        cases this

theorem quietOuts_cb (c : Bool) (i : Nat) : quietOuts (if c then [Out.cbOk i] else []) := by
  cases c <;>
    exact ⟨by simp [isEmitOpen], by simp [isEngineCall], by simp [isCloseLeak],
           by simp [isAssert]⟩

theorem quietOuts_err (c : Bool) (i : Nat) (e : ErrKind) :
    quietOuts (if c then [Out.cbErr i e] else [Out.emitError e]) := by
  cases c <;>
    exact ⟨by simp [isEmitOpen], by simp [isEngineCall], by simp [isCloseLeak],
           by simp [isAssert]⟩

theorem quietOuts_engineOks {m : List Out} (h : quietOuts m) : engineOks m = 0 :=
  Nat.le_zero.mp (h.2.1 ▸ engineOks_le_engineCalls m)

theorem Inv_afterOpen (s : DB) (l : List Out) (b : Baton) (ok : Bool)
    (hInv : Inv s l) (hdel : s.deleted = false) (hsome : s.openInFlight = some b) :
    Inv (EIO_AfterOpen ok b s).1 (l ++ (EIO_AfterOpen ok b s).2) := by
  obtain ⟨hco0, hop0, hh0, hcf0⟩ := hInv.opening (by simp [hsome])
  have hrefs1 : 1 ≤ s.refs := by
    have hr := hInv.refs_eq
    unfold refsOK outstanding obit at hr
    rw [hsome] at hr
    simp at hr
    omega
  have hcol : s.collected = false := by
    cases hval : s.collected
    · rfl
    · have := hInv.collectedZ hval
      omega
  have hdif : s.destructInFlight = false := by
    cases hval : s.destructInFlight
    · rfl
    · have := (hInv.destructing hval).1
      rw [hcol] at this
      cases this
  cases ok with
  | false =>
    have hstep : EIO_AfterOpen false b s =
        ({ s with openInFlight := none, refs := s.refs - 1, evRefs := s.evRefs - 1,
                  handle := false },
         if b.hasCb then [Out.cbErr b.id ErrKind.engine]
         else [Out.emitError ErrKind.engine]) := by
      simp [EIO_AfterOpen]
    rw [hstep]
    obtain ⟨m1, m2, m3, m4⟩ := quietOuts_err b.hasCb b.id ErrKind.engine
    refine ⟨?_, ?_, ?_, ?_, ?_, ?_, ?_, ?_, ?_, ?_, ?_, ?_, ?_, ?_⟩
    · have hr := hInv.refs_eq
      unfold refsOK outstanding obit cbit at hr ⊢
      rw [hsome] at hr
      simp [m3] at hr ⊢
      omega
    · have hv := hInv.ev_eq
      unfold evOK outstanding obit cbit dbit at hv ⊢
      rw [hsome] at hv
      simp [m3] at hv ⊢
      omega
    · simpa [m1] using hInv.open_le
    · have hce := hInv.close_le
      unfold hbit at hce ⊢
      rw [hh0] at hce
      simp [m1, quietOuts_engineOks ⟨m1, m2, m3, m4⟩] at hce ⊢
      omega
    · have hcg := hInv.calls_ge
      unfold hbit at hcg ⊢
      rw [hh0] at hcg
      simp [m1, m2] at hcg ⊢
      omega
    · intro hs
      simp at hs
    · intro hs
      simp [hcf0] at hs
    · intro hov
      have : s.open_ = true := by simpa using hov
      rw [hop0] at this
      cases this
    · intro hcc
      have : s.collected = true := by simpa using hcc
      rw [hcol] at this
      cases this
    · intro hdf
      have : s.destructInFlight = true := by simpa using hdf
      rw [hdif] at this
      cases this
    · intro hdd
      have : s.deleted = true := by simpa using hdd
      rw [hdel] at this
      cases this
    · intro x hx hk
      exact hInv.queue_wf x (by simpa using hx) hk
    · simpa [m4] using hInv.no_assert
    · intro ho' hl'
      have : s.open_ = true := by simpa using ho'
      rw [hop0] at this
      cases this
  | true =>
    have hstep : EIO_AfterOpen true b s =
        ((Process { s with openInFlight := none, refs := s.refs - 1,
                           evRefs := s.evRefs - 1, open_ := true, handle := true }).1,
         (if b.hasCb then [Out.cbOk b.id] else []) ++ [Out.emitOpen] ++
           (Process { s with openInFlight := none, refs := s.refs - 1,
                             evRefs := s.evRefs - 1, open_ := true, handle := true }).2) := by
      simp [EIO_AfterOpen]
    rw [hstep]
    obtain ⟨m1, m2, m3, m4⟩ := quietOuts_cb b.hasCb b.id
    have hpre2 : DrainPre
        { s with openInFlight := none, refs := s.refs - 1,
                 evRefs := s.evRefs - 1, open_ := true, handle := true }
        (l ++ ((if b.hasCb then [Out.cbOk b.id] else []) ++ [Out.emitOpen])) := by
      refine ⟨hdel, hcol, ?_, ?_, ?_, ?_, ?_⟩
      · have hr := hInv.refs_eq
        unfold refsOK outstanding obit cbit at hr ⊢
        rw [hsome] at hr
        simp [m3, isCloseLeak] at hr ⊢
        omega
      · have hv := hInv.ev_eq
        unfold evOK outstanding obit cbit dbit at hv ⊢
        rw [hsome] at hv
        simp [m3, isCloseLeak] at hv ⊢
        omega
      · intro hs
        simp [hcf0] at hs
      · intro _
        rfl
      · intro x hx hk
        exact hInv.queue_wf x (by simpa using hx) hk
    obtain ⟨⟨d1, d2, d3, d4, d5, d6, d7⟩, P2, P3, P4, P5, P6, P7⟩ :=
      Process_inv _ _ hpre2
    obtain ⟨n1, n2, n3, n4⟩ := P6
    refine ⟨?_, ?_, ?_, ?_, ?_, ?_, d5, ?_, ?_, ?_, ?_, d7, ?_, P7⟩
    · unfold refsOK at d3 ⊢
      simp only [List.append_assoc] at d3 ⊢
      exact d3
    · unfold evOK at d4 ⊢
      simp only [List.append_assoc] at d4 ⊢
      exact d4
    · simp [m1, hco0, n1, isEmitOpen]
    · have hce := hInv.close_le
      unfold hbit at hce ⊢
      rw [hh0, hco0] at hce
      rw [P3]
      simp [m1, hco0, n1, quietOuts_engineOks ⟨n1, n2, n3, n4⟩,
            quietOuts_engineOks ⟨m1, m2, m3, m4⟩, isEmitOpen, isEngineOk]
      omega
    · have hcg := hInv.calls_ge
      unfold hbit at hcg ⊢
      rw [hh0, hco0] at hcg
      rw [P3]
      simp [m1, m2, hco0, n1, n2, isEmitOpen, isEngineCall]
    · intro hs
      rw [P4] at hs
      simp at hs
    · intro _
      exact Or.inl (by rw [P3])
    · intro hcc
      rw [d2] at hcc
      cases hcc
    · intro hdf
      rw [P5] at hdf
      have : s.destructInFlight = true := by simpa using hdf
      rw [hdif] at this
      cases this
    · intro hdd
      rw [d1] at hdd
      cases hdd
    · simp [m4, hInv.no_assert, n4, isAssert]

theorem Inv_sharedComplete (s : DB) (l : List Out)
    (hInv : Inv s l) (hdel : s.deleted = false) (hp : s.pending ≠ 0) :
    Inv (sharedComplete s).1 (l ++ (sharedComplete s).2) := by
  have hrefs1 : 1 ≤ s.refs := by
    have hr := hInv.refs_eq
    unfold refsOK outstanding at hr
    omega
  have hcol : s.collected = false := by
    cases hval : s.collected
    · rfl
    · have := hInv.collectedZ hval
      omega
  have hdif : s.destructInFlight = false := by
    cases hval : s.destructInFlight
    · rfl
    · have := (hInv.destructing hval).1
      rw [hcol] at this
      cases this
  have hpre2 : DrainPre
      { s with pending := s.pending - 1, refs := s.refs - 1, evRefs := s.evRefs - 1 } l := by
    refine ⟨hdel, hcol, ?_, ?_, ?_, ?_, ?_⟩
    · have hr := hInv.refs_eq
      unfold refsOK outstanding obit cbit at hr ⊢
      simp
      omega
    · have hv := hInv.ev_eq
      unfold evOK outstanding obit cbit dbit at hv ⊢
      simp
      omega
    · intro hs
      simpa using hInv.closing (by simpa using hs)
    · intro hov
      rcases hInv.open_handle (by simpa using hov) with h | h
      · simpa using h
      · rw [hdel] at h
        cases h
    · intro x hx hk
      exact hInv.queue_wf x (by simpa using hx) hk
  obtain ⟨⟨d1, d2, d3, d4, d5, d6, d7⟩, P2, P3, P4, P5, P6, P7⟩ :=
    Process_inv _ _ hpre2
  obtain ⟨n1, n2, n3, n4⟩ := P6
  unfold sharedComplete
  refine ⟨d3, d4, ?_, ?_, ?_, ?_, d5, ?_, ?_, ?_, ?_, d7, ?_, P7⟩
  · simp [n1, hInv.open_le]
  · have hce := hInv.close_le
    unfold hbit at hce ⊢
    rw [P3]
    simp [n1, quietOuts_engineOks ⟨n1, n2, n3, n4⟩]
    omega
  · have hcg := hInv.calls_ge
    unfold hbit at hcg ⊢
    rw [P3]
    simp [n1, n2]
    omega
  · intro hs
    rw [P4] at hs
    obtain ⟨hco0, hop0, hh0, hcf0⟩ := hInv.opening (by simpa using hs)
    have hb := Process_state_blocked
      { s with pending := s.pending - 1, refs := s.refs - 1, evRefs := s.evRefs - 1 }
      (Or.inl (by simpa using hop0))
    refine ⟨by simp [n1, hco0], ?_, ?_, ?_⟩
    · rw [P2]
      simpa using hop0
    · rw [P3]
      simpa using hh0
    · rw [hb]
      simpa using hcf0
  · intro hov
    rw [P2] at hov
    rcases hInv.open_handle (by simpa using hov) with h | h
    · exact Or.inl (by rw [P3]; simpa using h)
    · rw [hdel] at h
      cases h
  · intro hcc
    rw [d2] at hcc
    cases hcc
  · intro hdf
    rw [P5] at hdf
    have : s.destructInFlight = true := by simpa using hdf
    rw [hdif] at this
    cases this
  · intro hdd
    rw [d1] at hdd
    cases hdd
  · simp [n4, hInv.no_assert]

theorem Inv_afterClose (s : DB) (l : List Out) (b : Baton) (ok : Bool)
    (hInv : Inv s l) (hdel : s.deleted = false) (hsome : s.closeInFlight = some b) :
    Inv (EIO_AfterClose ok b s).1 (l ++ (EIO_AfterClose ok b s).2) := by
  obtain ⟨hlk, hhd⟩ := hInv.closing (by simp [hsome])
  have hrefs1 : 1 ≤ s.refs := by
    have hr := hInv.refs_eq
    unfold refsOK outstanding cbit at hr
    rw [hsome] at hr
    simp at hr
    omega
  have hcol : s.collected = false := by
    cases hval : s.collected
    · rfl
    · have := hInv.collectedZ hval
      omega
  have hdif : s.destructInFlight = false := by
    cases hval : s.destructInFlight
    · rfl
    · have := (hInv.destructing hval).1
      rw [hcol] at this
      cases this
  have hoif : s.openInFlight = none := by
    cases hval : s.openInFlight with
    | none => rfl
    | some b2 =>
      have := (hInv.opening (by simp [hval])).2.2.2
      rw [hsome] at this
      cases this
  cases ok with
  | true =>
    have hstep : EIO_AfterClose true b s =
        ((Process { s with closeInFlight := none, refs := s.refs - 1,
                           evRefs := s.evRefs - 1, open_ := false, handle := false }).1,
         [Out.engineClose true] ++ (if b.hasCb then [Out.cbOk b.id] else [])
           ++ [Out.emitClose] ++
           (Process { s with closeInFlight := none, refs := s.refs - 1,
                             evRefs := s.evRefs - 1, open_ := false, handle := false }).2) := by
      simp [EIO_AfterClose]
    rw [hstep]
    obtain ⟨m1, m2, m3, m4⟩ := quietOuts_cb b.hasCb b.id
    have hpre2 : DrainPre
        { s with closeInFlight := none, refs := s.refs - 1,
                 evRefs := s.evRefs - 1, open_ := false, handle := false }
        (l ++ ([Out.engineClose true] ++ (if b.hasCb then [Out.cbOk b.id] else [])
               ++ [Out.emitClose])) := by
      refine ⟨hdel, hcol, ?_, ?_, ?_, ?_, ?_⟩
      · have hr := hInv.refs_eq
        unfold refsOK outstanding obit cbit at hr ⊢
        rw [hsome] at hr
        simp [m3, isCloseLeak] at hr ⊢
        omega
      · have hv := hInv.ev_eq
        unfold evOK outstanding obit cbit dbit at hv ⊢
        rw [hsome] at hv
        simp [m3, isCloseLeak] at hv ⊢
        omega
      · intro hs
        simp at hs
      · intro hov
        have : (false : Bool) = true := by simpa using hov
        cases this
      · intro x hx hk
        exact hInv.queue_wf x (by simpa using hx) hk
    obtain ⟨⟨d1, d2, d3, d4, d5, d6, d7⟩, P2, P3, P4, P5, P6, P7⟩ :=
      Process_inv _ _ hpre2
    obtain ⟨n1, n2, n3, n4⟩ := P6
    refine ⟨?_, ?_, ?_, ?_, ?_, ?_, d5, ?_, ?_, ?_, ?_, d7, ?_, P7⟩
    · unfold refsOK at d3 ⊢
      simp only [List.append_assoc] at d3 ⊢
      exact d3
    · unfold evOK at d4 ⊢
      simp only [List.append_assoc] at d4 ⊢
      exact d4
    · simp [m1, n1, isEmitOpen, hInv.open_le]
    · have hce := hInv.close_le
      unfold hbit at hce ⊢
      rw [hhd] at hce
      simp at hce
      rw [P3]
      simp [m1, n1, quietOuts_engineOks ⟨n1, n2, n3, n4⟩,
            quietOuts_engineOks ⟨m1, m2, m3, m4⟩, isEmitOpen, isEngineOk]
      omega
    · have hcg := hInv.calls_ge
      unfold hbit at hcg ⊢
      rw [hhd] at hcg
      simp at hcg
      rw [P3]
      simp [m1, m2, n1, n2, isEmitOpen, isEngineCall]
      omega
    · intro hs
      rw [P4] at hs
      simp [hoif] at hs
    · intro hov
      rw [P2] at hov
      have : (false : Bool) = true := by simpa using hov
      cases this
    · intro hcc
      rw [d2] at hcc
      cases hcc
    · intro hdf
      rw [P5] at hdf
      have : s.destructInFlight = true := by simpa using hdf
      rw [hdif] at this
      cases this
    · intro hdd
      rw [d1] at hdd
      cases hdd
    · simp [m4, n4, isAssert, hInv.no_assert]
  | false =>
    have hstep : EIO_AfterClose false b s =
        ({ s with closeInFlight := none, refs := s.refs - 1, evRefs := s.evRefs - 1 },
         [Out.engineClose false]
           ++ (if b.hasCb then [Out.cbErr b.id ErrKind.engine]
               else if s.open_ then [Out.emitError ErrKind.engine] else [])) := by
      simp [EIO_AfterClose]
    rw [hstep]
    have hquiet : quietOuts
        (if b.hasCb then [Out.cbErr b.id ErrKind.engine]
         else if s.open_ then [Out.emitError ErrKind.engine] else []) := by
      cases b.hasCb <;> cases s.open_ <;>
        exact ⟨by simp [isEmitOpen], by simp [isEngineCall], by simp [isCloseLeak],
               by simp [isAssert]⟩
    obtain ⟨m1, m2, m3, m4⟩ := hquiet
    refine ⟨?_, ?_, ?_, ?_, ?_, ?_, ?_, ?_, ?_, ?_, ?_, ?_, ?_, ?_⟩
    · have hr := hInv.refs_eq
      unfold refsOK outstanding obit cbit at hr ⊢
      rw [hsome] at hr
      simp [m3, isCloseLeak] at hr ⊢
      omega
    · have hv := hInv.ev_eq
      unfold evOK outstanding obit cbit dbit at hv ⊢
      rw [hsome] at hv
      simp [m3, isCloseLeak] at hv ⊢
      omega
    · simpa [m1, isEmitOpen] using hInv.open_le
    · have hce := hInv.close_le
      unfold hbit at hce ⊢
      simp [m1, quietOuts_engineOks ⟨m1, m2, m3, m4⟩, isEmitOpen, isEngineOk] at hce ⊢
      omega
    · have hcg := hInv.calls_ge
      unfold hbit at hcg ⊢
      simp [m1, m2, isEmitOpen, isEngineCall] at hcg ⊢
      omega
    · intro hs
      simp [hoif] at hs
    · intro hs
      simp at hs
    · intro hov
      rcases hInv.open_handle (by simpa using hov) with h | h
      · exact Or.inl (by simpa using h)
      · rw [hdel] at h
        cases h
    · intro hcc
      have : s.collected = true := by simpa using hcc
      rw [hcol] at this
      cases this
    · intro hdf
      have : s.destructInFlight = true := by simpa using hdf
      rw [hdif] at this
      cases this
    · intro hdd
      have : s.deleted = true := by simpa using hdd
      rw [hdel] at this
      cases this
    · intro x hx hk
      exact hInv.queue_wf x (by simpa using hx) hk
    · simpa [m4, isAssert] using hInv.no_assert
    · intro ho2 hl2
      have : s.locked = false := by simpa using hl2
      rw [hlk] at this
      cases this

theorem Inv_destruct (s : DB) (l : List Out)
    (hInv : Inv s l) (hdel : s.deleted = false) (hcol : s.collected = false)
    (hr0 : s.refs = 0) :
    Inv (Destruct s).1 (l ++ (Destruct s).2) := by
  obtain ⟨hoif, hcif, hp0, hqc0, hlk0⟩ := ledger_zero s l hInv.refs_eq hr0
  have hdif : s.destructInFlight = false := by
    cases hval : s.destructInFlight
    · rfl
    · have := (hInv.destructing hval).1
      rw [hcol] at this
      cases this
  unfold Destruct
  cases hh : s.handle with
  | true =>
    rw [if_pos (by simp [hh])]
    refine ⟨?_, ?_, ?_, ?_, ?_, ?_, ?_, ?_, ?_, ?_, ?_, ?_, ?_, ?_⟩
    · have hr := hInv.refs_eq
      unfold refsOK outstanding obit cbit at hr ⊢
      simpa using hr
    · have hv := hInv.ev_eq
      unfold evOK outstanding obit cbit dbit at hv ⊢
      rw [hdif] at hv
      simp at hv ⊢
      omega
    · simpa using hInv.open_le
    · have hce := hInv.close_le
      unfold hbit at hce ⊢
      simpa [hh] using hce
    · have hcg := hInv.calls_ge
      unfold hbit at hcg ⊢
      simpa [hh] using hcg
    · intro hs
      simp [hoif] at hs
    · intro hs
      simp [hcif] at hs
    · intro _
      exact Or.inl (by simpa using hh)
    · intro _
      simpa using hr0
    · intro _
      exact ⟨rfl, by simpa using hh, by simpa using hdel⟩
    · intro hdd
      have : s.deleted = true := by simpa using hdd
      rw [hdel] at this
      cases this
    · intro x hx hk
      exact hInv.queue_wf x (by simpa using hx) hk
    · simpa using hInv.no_assert
    · intro ho2 hl2
      rcases hInv.drained (by simpa using ho2) (by simpa using hl2) with h | ⟨c0, r0, hq0, he0, hp2⟩
      · exact Or.inl (by simpa using h)
      · exact Or.inr ⟨c0, r0, by simpa using hq0, he0, by simpa using hp2⟩
  | false =>
    rw [if_neg (by simp [hh])]
    refine ⟨?_, ?_, ?_, ?_, ?_, ?_, ?_, ?_, ?_, ?_, ?_, ?_, ?_, ?_⟩
    · have hr := hInv.refs_eq
      unfold refsOK outstanding obit cbit at hr ⊢
      simpa using hr
    · have hv := hInv.ev_eq
      unfold evOK outstanding obit cbit dbit at hv ⊢
      simpa using hv
    · simpa using hInv.open_le
    · have hce := hInv.close_le
      unfold hbit at hce ⊢
      simpa [hh] using hce
    · have hcg := hInv.calls_ge
      unfold hbit at hcg ⊢
      simpa [hh] using hcg
    · intro hs
      simp [hoif] at hs
    · intro hs
      simp [hcif] at hs
    · intro _
      exact Or.inr rfl
    · intro _
      simpa using hr0
    · intro hdf
      have : s.destructInFlight = true := by simpa using hdf
      rw [hdif] at this
      cases this
    · intro _
      exact ⟨by simpa using hh, by simpa using hdif, rfl⟩
    · intro x hx hk
      exact hInv.queue_wf x (by simpa using hx) hk
    · simpa using hInv.no_assert
    · intro ho2 hl2
      rcases hInv.drained (by simpa using ho2) (by simpa using hl2) with h | ⟨c0, r0, hq0, he0, hp2⟩
      · exact Or.inl (by simpa using h)
      · exact Or.inr ⟨c0, r0, by simpa using hq0, he0, by simpa using hp2⟩

theorem Inv_afterDestruct (s : DB) (l : List Out) (ok : Bool)
    (hInv : Inv s l) (hdel : s.deleted = false) (hdif : s.destructInFlight = true) :
    Inv (EIO_AfterDestruct ok s).1 (l ++ (EIO_AfterDestruct ok s).2) := by
  obtain ⟨hcol2, hh, _⟩ := hInv.destructing hdif
  have hr0 : s.refs = 0 := hInv.collectedZ hcol2
  obtain ⟨hoif, hcif, hp0, hqc0, hlk0⟩ := ledger_zero s l hInv.refs_eq hr0
  unfold EIO_AfterDestruct
  refine ⟨?_, ?_, ?_, ?_, ?_, ?_, ?_, ?_, ?_, ?_, ?_, ?_, ?_, ?_⟩
  · have hr := hInv.refs_eq
    unfold refsOK outstanding obit cbit at hr ⊢
    simp [isCloseLeak] at hr ⊢
    omega
  · have hv := hInv.ev_eq
    unfold evOK outstanding obit cbit dbit at hv ⊢
    rw [hdif] at hv
    simp [isCloseLeak] at hv ⊢
    omega
  · simpa [isEmitOpen] using hInv.open_le
  · have hce := hInv.close_le
    unfold hbit at hce ⊢
    rw [hh] at hce
    cases ok <;> simp [isEmitOpen, isEngineOk] at hce ⊢ <;> omega
  · have hcg := hInv.calls_ge
    unfold hbit at hcg ⊢
    rw [hh] at hcg
    cases ok <;> simp [isEmitOpen, isEngineCall] at hcg ⊢ <;> omega
  · intro hs
    simp [hoif] at hs
  · intro hs
    simp [hcif] at hs
  · intro _
    exact Or.inr rfl
  · intro _
    simpa using hr0
  · intro hdf2
    have : (false : Bool) = true := by simpa using hdf2
    cases this
  · intro _
    exact ⟨rfl, rfl, by simpa using hcol2⟩
  · intro x hx hk
    exact hInv.queue_wf x (by simpa using hx) hk
  · simpa [isAssert] using hInv.no_assert
  · intro ho2 hl2
    rcases hInv.drained (by simpa using ho2) (by simpa using hl2) with h | ⟨c0, r0, hq0, he0, hp2⟩
    · exact Or.inl (by simpa using h)
    · exact Or.inr ⟨c0, r0, by simpa using hq0, he0, by simpa using hp2⟩

/-- Every event preserves the invariant. -/
theorem Inv_step (s : DB) (l : List Out) (e : Ev) (hInv : Inv s l) :
    Inv (step s e).1 (l ++ (step s e).2) := by
  by_cases hdel : s.deleted = true
  · have hstep : step s e = (s, []) := by simp [step, hdel]
    rw [hstep]
    simpa using hInv
  · have hdel' : s.deleted = false := by
      cases hval : s.deleted
      · rfl
      · exact absurd hval hdel
    cases e with
    | openDone ok =>
      cases hsome : s.openInFlight with
      | none =>
        have hstep : step s (Ev.openDone ok) = (s, []) := by simp [step, hdel', hsome]
        rw [hstep]
        simpa using hInv
      | some b =>
        have hstep : step s (Ev.openDone ok) = EIO_AfterOpen ok b s := by
          simp [step, hdel', hsome]
        rw [hstep]
        exact Inv_afterOpen s l b ok hInv hdel' hsome
    | closeSubmit id hcb =>
      by_cases hcol : s.collected = true
      · have hstep : step s (Ev.closeSubmit id hcb) = (s, []) := by simp [step, hdel', hcol]
        rw [hstep]
        simpa using hInv
      · have hcol' : s.collected = false := by
          cases hval : s.collected
          · rfl
          · exact absurd hval hcol
        have hstep : step s (Ev.closeSubmit id hcb) =
            Schedule { s with refs := s.refs + 1, evRefs := s.evRefs + 1 }
              ⟨WorkKind.wclose, id, hcb, true⟩ := by
          simp [step, hdel', hcol']
        rw [hstep]
        exact Inv_schedule_close s l id hcb hInv hdel' hcol'
    | sharedSubmit id hcb =>
      by_cases hcol : s.collected = true
      · have hstep : step s (Ev.sharedSubmit id hcb) = (s, []) := by simp [step, hdel', hcol]
        rw [hstep]
        simpa using hInv
      · have hcol' : s.collected = false := by
          cases hval : s.collected
          · rfl
          · exact absurd hval hcol
        have hstep : step s (Ev.sharedSubmit id hcb) =
            Schedule s ⟨WorkKind.wshared, id, hcb, false⟩ := by
          simp [step, hdel', hcol']
        rw [hstep]
        exact Inv_schedule_shared s l id hcb hInv hdel' hcol'
    | sharedDone =>
      by_cases hp : (s.pending == 0) = true
      · have hstep : step s Ev.sharedDone = (s, []) := by simp [step, hdel', hp]
        rw [hstep]
        simpa using hInv
      · have hstep : step s Ev.sharedDone = sharedComplete s := by
          simp [step, hdel', hp]
        rw [hstep]
        exact Inv_sharedComplete s l hInv hdel' (by simpa using hp)
    | closeDone ok =>
      cases hsome : s.closeInFlight with
      | none =>
        have hstep : step s (Ev.closeDone ok) = (s, []) := by simp [step, hdel', hsome]
        rw [hstep]
        simpa using hInv
      | some b =>
        have hstep : step s (Ev.closeDone ok) = EIO_AfterClose ok b s := by
          simp [step, hdel', hsome]
        rw [hstep]
        exact Inv_afterClose s l b ok hInv hdel' hsome
    | gc =>
      by_cases hg : (s.collected || !(s.refs == 0)) = true
      · have hstep : step s Ev.gc = (s, []) := by simp [step, hdel', hg]
        rw [hstep]
        simpa using hInv
      · have hg' : s.collected = false ∧ s.refs = 0 := by simpa using hg
        have hstep : step s Ev.gc = Destruct s := by
          simp [step, hdel', hg'.1, hg'.2]
        rw [hstep]
        exact Inv_destruct s l hInv hdel' hg'.1 hg'.2
    | destructDone ok =>
      by_cases hdif : s.destructInFlight = true
      · have hstep : step s (Ev.destructDone ok) = EIO_AfterDestruct ok s := by
          simp [step, hdel', hdif]
        rw [hstep]
        exact Inv_afterDestruct s l ok hInv hdel' hdif
      · have hdif' : s.destructInFlight = false := by
          cases hval : s.destructInFlight
          · rfl
          · exact absurd hval hdif
        have hstep : step s (Ev.destructDone ok) = (s, []) := by simp [step, hdel', hdif']
        rw [hstep]
        simpa using hInv

/-- Running any event list preserves the invariant. -/
theorem Inv_run : ∀ (es : List Ev) (s : DB) (l : List Out), Inv s l →
    Inv (run s es).1 (l ++ (run s es).2) := by
  intro es
  induction es with
  | nil =>
    intro s l h
    simpa [run] using h
  | cons e rest ih =>
    intro s l h
    have h2 := ih (step s e).1 (l ++ (step s e).2) (Inv_step s l e h)
    simp only [run]
    simpa [List.append_assoc] using h2

/-- The freshly constructed connection satisfies the invariant. -/
theorem Inv_init (hc : Bool) : Inv (init hc) [] := by
  refine ⟨?_, ?_, ?_, ?_, ?_, ?_, ?_, ?_, ?_, ?_, ?_, ?_, ?_, ?_⟩
  · unfold refsOK outstanding obit cbit init
    simp
  · unfold evOK outstanding obit cbit dbit init
    simp
  · simp
  · unfold hbit init
    simp
  · unfold hbit init
    simp
  · intro _
    exact ⟨rfl, rfl, rfl, rfl⟩
  · intro hs
    simp [init] at hs
  · intro ho
    simp [init] at ho
  · intro hcc
    simp [init] at hcc
  · intro hdf
    simp [init] at hdf
  · intro hdd
    simp [init] at hdd
  · intro x hx
    simp [init] at hx
  · simp
  · intro ho _
    simp [init] at ho

/-- The invariant holds in every reachable state of a connection. -/
theorem Inv_reachable (hc : Bool) (es : List Ev) :
    Inv (run (init hc) es).1 (run (init hc) es).2 := by
  simpa using Inv_run es (init hc) [] (Inv_init hc)

/-! ### Further scheduler lemmas used by the claims -/

/-- `Process` dispatches an initial segment of the queue, in order. -/
theorem Process_fifo (db : DB) :
    ∃ k, dispatchIds (Process db).2 = (db.queue.take k).map Call.id ∧
         (Process db).1.queue = db.queue.drop k := by
  unfold Process
  by_cases hc : (!db.open_ && db.locked && !db.queue.isEmpty) = true
  · rw [if_pos hc]
    exact ⟨0, by simp [dispatchIds], by simp⟩
  · rw [if_neg hc]
    exact drainFuel_fifo db.queue.length db

/-- When the connection is not open, or locked, `Process` changes nothing and
    dispatches nothing. -/
theorem Process_blocked_no_dispatch (db : DB)
    (h : db.open_ = false ∨ db.locked = true) :
    (Process db).1 = db ∧ dispatchIds (Process db).2 = [] := by
  refine ⟨Process_state_blocked db h, ?_⟩
  unfold Process
  by_cases hc : (!db.open_ && db.locked && !db.queue.isEmpty) = true
  · rw [if_pos hc]
    simp [dispatchIds]
  · rw [if_neg hc]
    unfold drain
    rw [drainFuel_blocked _ _ h]
    rfl

/-! ### The claims -/

/-- Claim C1, counterexample.  After a successful open, dispatch shared
    record 1 (`pending = 1`), submit exclusive close record 2 (queued behind
    the pending shared operation), then submit shared record 3: record 3,
    submitted after the exclusive record 2, executes immediately while
    record 2 still waits in the queue — a later-submitted record runs ahead
    of a waiting exclusive record. -/
theorem C1_counterexample :
    Out.dispatched 3 WorkKind.wshared ∈
      (run (init false) [Ev.openDone true, Ev.sharedSubmit 1 false,
        Ev.closeSubmit 2 false, Ev.sharedSubmit 3 false]).2 ∧
    Out.dispatched 2 WorkKind.wclose ∉
      (run (init false) [Ev.openDone true, Ev.sharedSubmit 1 false,
        Ev.closeSubmit 2 false, Ev.sharedSubmit 3 false]).2 ∧
    (run (init false) [Ev.openDone true, Ev.sharedSubmit 1 false,
        Ev.closeSubmit 2 false, Ev.sharedSubmit 3 false]).1.queue.map Call.id = [2] := by
  decide

/-- Claim C1, amended.  While an exclusive record waits at the queue front
    with `pending > 0`, the drain loop dispatches nothing (queued records
    keep FIFO order and cannot jump ahead); but a shared record submitted
    while `open && !locked` bypasses the queue entirely and executes
    immediately, so a later-submitted shared record can run before an
    earlier-submitted exclusive record.  Records that do drain from the
    queue are dispatched as a prefix of the queue, in submission order. -/
theorem C1_amended (db : DB) (cl : Call) (rest : List Call) (id : Nat) (hcb : Bool)
    (hq : db.queue = cl :: rest) (hex : cl.exclusive = true) (hp : 0 < db.pending)
    (ho : db.open_ = true) (hl : db.locked = false) :
    Process db = (db, []) ∧
    Schedule db ⟨WorkKind.wshared, id, hcb, false⟩ =
      ({ db with pending := db.pending + 1, refs := db.refs + 1,
                 evRefs := db.evRefs + 1 },
       [Out.dispatched id WorkKind.wshared]) ∧
    (∀ db' : DB, ∃ k, dispatchIds (Process db').2 = (db'.queue.take k).map Call.id ∧
       (Process db').1.queue = db'.queue.drop k) := by
  refine ⟨?_, ?_, fun db' => Process_fifo db'⟩
  · unfold Process
    rw [if_neg (by simp [ho])]
    unfold drain
    have hlen : db.queue.length = rest.length + 1 := by rw [hq]; rfl
    rw [hlen, drainFuel_succ_cons rest.length db cl rest hq]
    rw [if_neg (by simp [ho, hl])]
    rw [if_pos (by rw [hex]; simp; omega)]
  · unfold Schedule
    rw [if_neg (by simp [ho]), if_neg (by simp [ho, hl])]
    simp [Call.exec, beginShared]

/-- Claim C1, amended, witness at a concrete state: an open unlocked
    connection with one pending shared operation and an exclusive close
    waiting at the queue front. -/
theorem C1_amended_witness :
    (0 : Nat) < 1 ∧ Process dbWaitingClose = (dbWaitingClose, []) :=
  ⟨by decide,
   (C1_amended dbWaitingClose ⟨WorkKind.wclose, 2, false, true⟩ [] 3 false
     rfl rfl (by decide) rfl rfl).1⟩

/-- Claim C2, counterexample.  Open, dispatch a close, queue shared record 2
    while the close is in flight, let the close complete: the drain runs with
    the connection permanently closed and the queue non-empty, and emits a
    single "error" event; record 2 stays in the queue and its completion
    action is never invoked — the queue is not failed record by record, and
    not emptied. -/
theorem C2_counterexample :
    (run (init false) [Ev.openDone true, Ev.closeSubmit 1 false,
       Ev.sharedSubmit 2 true, Ev.closeDone true]).1.queue.map Call.id = [2] ∧
    Out.cbErr 2 ErrKind.misuse ∉
      (run (init false) [Ev.openDone true, Ev.closeSubmit 1 false,
        Ev.sharedSubmit 2 true, Ev.closeDone true]).2 ∧
    (run (init false) [Ev.openDone true, Ev.closeSubmit 1 false,
       Ev.sharedSubmit 2 true, Ev.closeDone true]).2 =
      [Out.emitOpen, Out.dispatched 1 WorkKind.wclose, Out.engineClose true,
       Out.emitClose, Out.emitError ErrKind.misuse] := by
  decide

/-- Claim C2, amended.  When drain runs with the connection permanently
    closed (`!open && locked`) and the queue non-empty, it emits exactly one
    "Database is closed" error notification and returns, leaving the state —
    including the entire queue — untouched; the queued records' completion
    actions are never invoked. -/
theorem C2_amended (db : DB) (ho : db.open_ = false) (hl : db.locked = true)
    (hq : db.queue ≠ []) :
    Process db = (db, [Out.emitError ErrKind.misuse]) := by
  unfold Process
  cases hq0 : db.queue with
  | nil => exact absurd hq0 hq
  | cons c r0 =>
    rw [if_pos (by simp [ho, hl, hq0])]

/-- Claim C2, amended, witness: a permanently closed connection with two
    queued shared records. -/
theorem C2_amended_witness :
    dbClosedQueued.queue ≠ [] ∧
    Process dbClosedQueued = (dbClosedQueued, [Out.emitError ErrKind.misuse]) :=
  ⟨by decide, C2_amended dbClosedQueued rfl rfl (by decide)⟩

/-- Claim C3, counterexample.  Before the close begins, `locked = false`;
    after the close work fails, `open` and the handle are unchanged but
    `locked` remains `true` (it does not return to its pre-close value), so
    a retried `close()` is appended to the queue and never dispatched
    (`Process` leaves the locked connection untouched). -/
theorem C3_counterexample :
    (run (init false) [Ev.openDone true]).1.locked = false ∧
    (run (init false) [Ev.openDone true, Ev.closeSubmit 1 true,
       Ev.closeDone false]).1.open_ = true ∧
    (run (init false) [Ev.openDone true, Ev.closeSubmit 1 true,
       Ev.closeDone false]).1.handle = true ∧
    (run (init false) [Ev.openDone true, Ev.closeSubmit 1 true,
       Ev.closeDone false]).1.locked = true ∧
    (run (init false) [Ev.openDone true, Ev.closeSubmit 1 true, Ev.closeDone false,
       Ev.closeSubmit 2 true]).1.queue.map Call.id = [2] ∧
    Out.dispatched 2 WorkKind.wclose ∉
      (run (init false) [Ev.openDone true, Ev.closeSubmit 1 true, Ev.closeDone false,
        Ev.closeSubmit 2 true]).2 ∧
    Process (run (init false) [Ev.openDone true, Ev.closeSubmit 1 true, Ev.closeDone false,
        Ev.closeSubmit 2 true]).1 =
      ((run (init false) [Ev.openDone true, Ev.closeSubmit 1 true, Ev.closeDone false,
        Ev.closeSubmit 2 true]).1, []) := by
  decide

/-- Claim C3, amended.  If the close work fails in the engine, `open`, the
    native handle, the queue — and also `locked` — are left exactly as they
    were (so `locked` stays `true`, it is not restored to its pre-close
    value); the error is delivered to the close's completion action, or,
    absent one and with the connection still open, emitted as an "error"
    notification; and since `Process` never dispatches from a locked
    connection, a retried `close()` is queued but never dispatched. -/
theorem C3_amended (s : DB) (b : Baton) (hsome : s.closeInFlight = some b)
    (hdel : s.deleted = false) :
    (EIO_AfterClose false b s).1.open_ = s.open_ ∧
    (EIO_AfterClose false b s).1.handle = s.handle ∧
    (EIO_AfterClose false b s).1.locked = s.locked ∧
    (EIO_AfterClose false b s).1.queue = s.queue ∧
    (EIO_AfterClose false b s).2 =
      [Out.engineClose false]
        ++ (if b.hasCb then [Out.cbErr b.id ErrKind.engine]
            else if s.open_ then [Out.emitError ErrKind.engine] else []) ∧
    (∀ db : DB, db.locked = true →
       (Process db).1 = db ∧ dispatchIds (Process db).2 = []) := by
  refine ⟨rfl, rfl, rfl, rfl, by simp [EIO_AfterClose], ?_⟩
  intro db h
  exact Process_blocked_no_dispatch db (Or.inr h)

/-- Claim C3, amended, witness at a concrete state with a failing close in
    flight. -/
theorem C3_amended_witness :
    dbClosing.closeInFlight = some ⟨1, true⟩ ∧
    (EIO_AfterClose false ⟨1, true⟩ dbClosing).1.locked = true :=
  ⟨rfl,
   by
    have h := (C3_amended dbClosing ⟨1, true⟩ rfl rfl).2.2.1
    simpa [dbClosing] using h⟩

/-- Claim C4, counterexample.  A failed open delivers an engine error to the
    open's completion action and emits no "open" event — but a `close()`
    submitted afterwards is appended to the queue (the connection has
    `open = false, locked = false`), with no MisuseError delivered and no
    dispatch: the request is queued forever, not failed immediately. -/
theorem C4_counterexample :
    Out.emitOpen ∉ (run (init true) [Ev.openDone false, Ev.closeSubmit 1 true]).2 ∧
    Out.cbErr 0 ErrKind.engine ∈
      (run (init true) [Ev.openDone false, Ev.closeSubmit 1 true]).2 ∧
    (run (init true) [Ev.openDone false, Ev.closeSubmit 1 true]).1.queue.map Call.id
      = [1] ∧
    Out.cbErr 1 ErrKind.misuse ∉
      (run (init true) [Ev.openDone false, Ev.closeSubmit 1 true]).2 ∧
    Out.failClosed 1 WorkKind.wclose true ∉
      (run (init true) [Ev.openDone false, Ev.closeSubmit 1 true]).2 ∧
    Out.dispatched 1 WorkKind.wclose ∉
      (run (init true) [Ev.openDone false, Ev.closeSubmit 1 true]).2 := by
  decide

/-- Claim C4, amended.  If the open work fails, the completion action
    receives the engine error (or, absent one, an "error" notification is
    emitted), no "open" notification fires, and the connection stays
    `open = false` with `locked` unchanged (`false`); but a request —
    including `close()` — submitted afterwards is appended to the queue
    rather than failed with a MisuseError, and `Process` never dispatches
    from a connection that is not open, so it is never processed. -/
theorem C4_amended (s : DB) (b : Baton) (s2 : DB) (id : Nat) (hcb : Bool)
    (hsome : s.openInFlight = some b)
    (h2o : s2.open_ = false) (h2l : s2.locked = false)
    (h2c : s2.collected = false) (h2d : s2.deleted = false) :
    (EIO_AfterOpen false b s).2 =
      (if b.hasCb then [Out.cbErr b.id ErrKind.engine]
       else [Out.emitError ErrKind.engine]) ∧
    Out.emitOpen ∉ (EIO_AfterOpen false b s).2 ∧
    (EIO_AfterOpen false b s).1.open_ = s.open_ ∧
    (EIO_AfterOpen false b s).1.locked = s.locked ∧
    step s2 (Ev.closeSubmit id hcb) =
      ({ s2 with refs := s2.refs + 1, evRefs := s2.evRefs + 1,
                 queue := s2.queue ++ [⟨WorkKind.wclose, id, hcb, true⟩] }, []) ∧
    (∀ db : DB, db.open_ = false →
       (Process db).1 = db ∧ dispatchIds (Process db).2 = []) := by
  refine ⟨by simp [EIO_AfterOpen], ?_, rfl, rfl, ?_, ?_⟩
  · have : (EIO_AfterOpen false b s).2 =
        (if b.hasCb then [Out.cbErr b.id ErrKind.engine]
         else [Out.emitError ErrKind.engine]) := by simp [EIO_AfterOpen]
    rw [this]
    cases b.hasCb <;> simp
  · have hstep : step s2 (Ev.closeSubmit id hcb) =
        Schedule { s2 with refs := s2.refs + 1, evRefs := s2.evRefs + 1 }
          ⟨WorkKind.wclose, id, hcb, true⟩ := by
      simp [step, h2d, h2c]
    rw [hstep]
    unfold Schedule
    rw [if_neg (by simp [h2l]), if_pos (by simp [h2o])]
  · intro db h
    exact Process_blocked_no_dispatch db (Or.inl h)

/-- Claim C4, amended, witness: a connection whose open is in flight, and a
    second connection state as a failed open leaves it. -/
theorem C4_amended_witness :
    (init true).openInFlight = some ⟨0, true⟩ ∧
    step dbOpenFailed (Ev.closeSubmit 1 true) =
      ({ dbOpenFailed with refs := 1, evRefs := 1,
                           queue := [⟨WorkKind.wclose, 1, true, true⟩] }, []) :=
  ⟨rfl,
   by
    have h := (C4_amended (init true) ⟨0, true⟩ dbOpenFailed 1 true
      rfl rfl rfl rfl rfl).2.2.2.2.1
    simpa [dbOpenFailed] using h⟩

/-- Claim C5, counterexample.  An explicit close whose engine call fails,
    followed by loss of the external reference: the failed close call and
    the finalization close call both reach the engine — two close calls for
    one handle, refuting "exactly one close call reaches the engine across
    every interleaving".  And since `EIO_Destruct` ignores the engine's
    verdict, in the run where the finalization close also fails, no
    successful close ever happens for the one successful open. -/
theorem C5_counterexample :
    engineCalls (run (init false) [Ev.openDone true, Ev.closeSubmit 1 false,
      Ev.closeDone false, Ev.gc, Ev.destructDone true]).2 = 2 ∧
    engineOks (run (init false) [Ev.openDone true, Ev.closeSubmit 1 false,
      Ev.closeDone false, Ev.gc, Ev.destructDone false]).2 = 0 ∧
    emitOpens (run (init false) [Ev.openDone true, Ev.closeSubmit 1 false,
      Ev.closeDone false, Ev.gc, Ev.destructDone false]).2 = 1 := by
  decide

/-- Claim C5, amended.  Across every interleaving, at most one successful
    close call ever reaches the engine (the handle is never closed twice);
    once the connection object has been deleted the handle is absent and at
    least as many engine close calls as successful opens were made (an
    opened handle is always passed to the engine's close, never simply
    dropped); and when every engine close call succeeded, the number of
    successful closes equals the number of successful opens — exactly one
    per opened handle.  (A failed explicit close leaves the handle set and
    finalization then issues a second call, so the total may exceed one;
    and because `EIO_Destruct` ignores the engine's verdict, a failing
    finalization close can leave the handle engine-side unclosed.) -/
theorem C5_amended (hc : Bool) (es : List Ev) :
    engineOks (run (init hc) es).2 ≤ 1 ∧
    ((run (init hc) es).1.deleted = true →
      (run (init hc) es).1.handle = false ∧
      emitOpens (run (init hc) es).2 ≤ engineCalls (run (init hc) es).2 ∧
      (engineOks (run (init hc) es).2 = engineCalls (run (init hc) es).2 →
        engineOks (run (init hc) es).2 = emitOpens (run (init hc) es).2)) := by
  have hInv := Inv_reachable hc es
  constructor
  · have hle := hInv.close_le
    have hol := hInv.open_le
    unfold hbit at hle
    cases hval : (run (init hc) es).1.handle <;> rw [hval] at hle <;> simp at hle <;>
      omega
  · intro hd
    have hle := hInv.close_le
    have hge := hInv.calls_ge
    have hh := (hInv.deletedF hd).1
    unfold hbit at hle hge
    rw [hh] at hle hge
    simp at hle hge
    exact ⟨hh, by omega, fun heq => by omega⟩

/-- Claim C6: whenever the scheduler begins a close (`EIO_BeginClose`), the
    assertions `open == true`, `locked == false`, `pending == 0` hold — in
    every reachable execution, no failed assertion is ever observed: an
    exclusive record is dispatched only when no shared operation is in
    flight, and is otherwise held in the queue. -/
theorem C6_beginClose_asserts_hold (hc : Bool) (es : List Ev) :
    Out.assertFailed ∉ (run (init hc) es).2 := by
  intro hmem
  have h := (Inv_reachable hc es).no_assert
  unfold asserts at h
  have h2 := List.countP_eq_zero.mp h _ hmem
  simp [isAssert] at h2

/-- Claim C7: `Database::Schedule` performs exactly the case analysis the
    spec states for submit: fail immediately (never queueing) on a
    permanently closed connection, delivering the error to the completion
    action or emitting it if none was supplied; append to the queue when not
    open, locked, or exclusive with `pending > 0`; otherwise execute the
    record's work immediately. -/
theorem C7_schedule_matches_spec (db : DB) (c : Call) :
    Schedule db c = submitSpec db c := by
  obtain ⟨o, lk, p, q, r, v, h, oi, ci, dfl, cl, de⟩ := db
  obtain ⟨k, i, hc, ex⟩ := c
  cases o <;> cases lk <;> cases ex <;> cases p <;>
    simp [Schedule, submitSpec, permanentlyClosed, Call.exec]

/-- Claim C8, counterexample.  After a completed close the ref count is back
    to zero; a second `close()` — submitted against the now permanently
    closed connection — increments the ref count at submission, is failed
    without ever dispatching, and leaves nothing in flight and nothing
    queued: the increment is never undone (`refs = 1` with no outstanding
    work), refuting "the ref count returns to the value it held before ...
    including for a close() submitted against a permanently closed
    connection". -/
theorem C8_counterexample :
    (run (init false) [Ev.openDone true, Ev.closeSubmit 1 true,
       Ev.closeDone true]).1.refs = 0 ∧
    (run (init false) [Ev.openDone true, Ev.closeSubmit 1 true, Ev.closeDone true,
       Ev.closeSubmit 2 true]).1.refs = 1 ∧
    (run (init false) [Ev.openDone true, Ev.closeSubmit 1 true, Ev.closeDone true,
       Ev.closeSubmit 2 true]).1.evRefs = 1 ∧
    (run (init false) [Ev.openDone true, Ev.closeSubmit 1 true, Ev.closeDone true,
       Ev.closeSubmit 2 true]).1.openInFlight = none ∧
    (run (init false) [Ev.openDone true, Ev.closeSubmit 1 true, Ev.closeDone true,
       Ev.closeSubmit 2 true]).1.closeInFlight = none ∧
    (run (init false) [Ev.openDone true, Ev.closeSubmit 1 true, Ev.closeDone true,
       Ev.closeSubmit 2 true]).1.pending = 0 ∧
    (run (init false) [Ev.openDone true, Ev.closeSubmit 1 true, Ev.closeDone true,
       Ev.closeSubmit 2 true]).1.queue = [] ∧
    Out.failClosed 2 WorkKind.wclose true ∈
      (run (init false) [Ev.openDone true, Ev.closeSubmit 1 true, Ev.closeDone true,
        Ev.closeSubmit 2 true]).2 ∧
    Out.dispatched 2 WorkKind.wclose ∉
      (run (init false) [Ev.openDone true, Ev.closeSubmit 1 true, Ev.closeDone true,
        Ev.closeSubmit 2 true]).2 := by
  decide

/-- Claim C8, amended.  In every reachable state, the ref count equals the
    outstanding bracketed work — one for an in-flight open, one for an
    in-flight close, one per in-flight shared operation, one per queued
    close (whose reference is taken at submission) — plus one permanently
    leaked reference per close submitted against a permanently closed
    connection; the event-loop marker obeys the same ledger plus one for an
    in-flight destruct.  Hence the ref count returns to its pre-dispatch
    value when a dispatch completes, except that a close failed on a
    permanently closed connection never returns its submission-time
    increment. -/
theorem C8_amended (hc : Bool) (es : List Ev) :
    (run (init hc) es).1.refs =
      outstanding (run (init hc) es).1 + closeLeaks (run (init hc) es).2 ∧
    (run (init hc) es).1.evRefs =
      outstanding (run (init hc) es).1 + closeLeaks (run (init hc) es).2 +
        dbit (run (init hc) es).1 :=
  ⟨(Inv_reachable hc es).refs_eq, (Inv_reachable hc es).ev_eq⟩

/-- Claim C9: for every construction, the mode passed to the engine's open
    call is the caller-supplied Int32 mode (defaulting to
    `SQLITE_OPEN_READWRITE | SQLITE_OPEN_CREATE` when no integer argument is
    given at position 1) OR'd with `SQLITE_OPEN_FULLMUTEX`. -/
theorem C9_open_mode (args : List JsVal) (r : NewResult)
    (h : Database.New true args = Except.ok r) :
    r.baton.mode = SQLITE_OPEN_FULLMUTEX |||
      (match argAt args 1 with
       | JsVal.vint n => n
       | _ => SQLITE_OPEN_READWRITE ||| SQLITE_OPEN_CREATE) := by
  unfold Database.New at h
  simp at h
  cases h0 : argAt args 0 <;> rw [h0] at h <;> simp at h
  rw [← h]

/-- Claim C9, witness: constructing with only a filename yields
    `SQLITE_OPEN_FULLMUTEX | (SQLITE_OPEN_READWRITE | SQLITE_OPEN_CREATE)`. -/
theorem C9_open_mode_witness :
    ∃ r, Database.New true [JsVal.vstr "test.db"] = Except.ok r ∧
      r.baton.mode = SQLITE_OPEN_FULLMUTEX |||
        (SQLITE_OPEN_READWRITE ||| SQLITE_OPEN_CREATE) :=
  ⟨_, rfl, C9_open_mode [JsVal.vstr "test.db"] _ rfl⟩

/-- Claim C10: invoking the constructor without `new` (a non-construct call)
    throws a TypeError: `Database.New` returns the thrown exception for every
    argument list, so no connection object is built, no open work is
    dispatched, and no state is left behind. -/
theorem C10_non_construct_call (args : List JsVal) :
    Database.New false args =
      Except.error (JsErr.typeError
        "Use the new keyword to create new Database objects") := by
  rfl

end NodeSqlite
